import Mathlib

/-!
# Verification of the browserrc key-input core

Shallow embedding of the repository's key-input subsystem:

* `core/hooks.js`           — the `Hook` multi-listener registry;
* `core/keyParser.js`       — key-notation parsing and serialisation;
* `core/trie.js`            — the prefix tree over key strings
                              (the boolean-`isCompletable` variant);
* `src/unnamed/part_016`    — the `KeyProcessor` state machine built on the
                              three modules above.

JavaScript mutable state is threaded explicitly.  Platform timers
(`setTimeout` / `setInterval`) are modelled by recording scheduled timer ids
in the state together with the data each closure captured; a timer firing is
a separate step function that runs the body of the closure the source passes
to the scheduler.  Hook `.trigger(...)` calls made by the processor are
modelled as an emitted event trace (the processor never inspects their
return values, except for `onKey`, whose listener results are therefore a
parameter of the processing functions).
-/

/-! ## Hook (`core/hooks.js`)

A listener is a function that may throw: `α → Except ε ρ`.  The per-listener
`onError` callback may itself throw (`trigger` swallows that error), so it is
`ε → Except Unit Unit`.  `trigger` returns the positional results
(`none` standing for JavaScript `undefined` in a slot whose listener threw)
together with the routing record: the `(index, error)` pairs, in order, of
the listeners whose own `onError` was invoked. -/

structure HookEntry (α ρ ε : Type) where
  listener : α → Except ε ρ
  onError : ε → Except Unit Unit

/-- Default `onError`: the source's `(() => {})` no-op. -/
def defaultOnError {ε : Type} : ε → Except Unit Unit := fun _ => Except.ok ()

structure Hook (α ρ ε : Type) where
  entries : List (HookEntry α ρ ε)

/-- `register(listener, options)` appends an entry; a missing
`options.onError` defaults to the no-op handler.  (The unregister closure the
source returns removes the entry by reference; it is not needed by the
claims.) -/
def Hook.register {α ρ ε : Type} (h : Hook α ρ ε) (listener : α → Except ε ρ)
    (onError : Option (ε → Except Unit Unit)) : Hook α ρ ε :=
  { entries := h.entries ++ [{ listener := listener, onError := onError.getD defaultOnError }] }

/-- The body of `Hook.trigger`'s loop, carrying the index of the next entry
so that the routing record can name the listener it belongs to. -/
def triggerAux {α ρ ε : Type} : List (HookEntry α ρ ε) → Nat → α →
    List (Option ρ) × List (Nat × ε)
  | [], _, _ => ([], [])
  | e :: rest, i, a =>
    match e.listener a with
    | Except.ok v =>
        let r := triggerAux rest (i + 1) a
        (some v :: r.1, r.2)
    | Except.error err =>
        -- `try { entry.onError(error) } catch { /* ignore */ }`
        let _ := e.onError err
        let r := triggerAux rest (i + 1) a
        (none :: r.1, (i, err) :: r.2)

/-- `trigger(...args)`: invoke every listener in order, isolating errors. -/
def Hook.trigger {α ρ ε : Type} (h : Hook α ρ ε) (a : α) :
    List (Option ρ) × List (Nat × ε) :=
  triggerAux h.entries 0 a

/-- `clear()` drops all listeners. -/
def Hook.clear {α ρ ε : Type} (_h : Hook α ρ ε) : Hook α ρ ε := { entries := [] }

/-- `count`: the number of registered listeners. -/
def Hook.count {α ρ ε : Type} (h : Hook α ρ ε) : Nat := h.entries.length

/-! ## Key notation parser (`core/keyParser.js`)

JavaScript string primitives are modelled over the character list of the
string (Lean's built-in `String.startsWith`/`String.toLower` are opaque to
kernel reduction); `toLowerCase`/`toUpperCase` act on ASCII letters, which
covers every string the parser manipulates. -/

def jsStartsWith (s pre : String) : Bool := pre.toList.isPrefixOf s.toList

def jsEndsWith (s suf : String) : Bool := suf.toList.isSuffixOf s.toList

def jsToLower (s : String) : String := String.mk (s.toList.map Char.toLower)

def jsToUpper (s : String) : String := String.mk (s.toList.map Char.toUpper)

def jsDrop (s : String) (n : Nat) : String := String.mk (s.toList.drop n)

def jsDropRight (s : String) (n : Nat) : String :=
  String.mk (s.toList.take (s.toList.length - n))

def jsLength (s : String) : Nat := s.toList.length


/-- The five modifier flags of a normalized key.  The source names the last
field `super`; that is a reserved token here, hence `superKey`. -/
structure Modifiers where
  ctrl : Bool
  alt : Bool
  shift : Bool
  meta : Bool
  superKey : Bool
deriving DecidableEq

def Modifiers.allFalse : Modifiers :=
  { ctrl := false, alt := false, shift := false, meta := false, superKey := false }

/-- One internal modifier property name (`'ctrl'`, `'alt'`, ...). -/
inductive MProp : Type
  | ctrl
  | alt
  | shift
  | meta
  | superP
deriving DecidableEq

/-- A pattern's `property` field is either a single string or an array of
strings in the source (`Array.isArray(property)` distinguishes them). -/
inductive ModPropertySpec : Type
  | single (p : MProp)
  | multi (ps : List MProp)
deriving DecidableEq

structure ModifierPattern where
  pattern : String
  property : ModPropertySpec
  length : Nat
deriving DecidableEq

/-- `MODIFIER_PATTERNS` as it stands after module initialisation: the seven
base entries, then `registerModifier('hyper', [super,shift,alt,ctrl])` and
`registerModifier('meh', [ctrl,alt,shift])` each push an entry and re-sort
the list by descending `length` (JavaScript's stable sort), giving
`hyper-`(6), `meta-`(5), `meh-`(4), then the length-2 entries in their
original order. -/
def MODIFIER_PATTERNS : List ModifierPattern :=
  [ { pattern := "hyper-", property := ModPropertySpec.multi [MProp.superP, MProp.shift, MProp.alt, MProp.ctrl], length := 6 },
    { pattern := "meta-", property := ModPropertySpec.single MProp.meta, length := 5 },
    { pattern := "meh-", property := ModPropertySpec.multi [MProp.ctrl, MProp.alt, MProp.shift], length := 4 },
    { pattern := "c-", property := ModPropertySpec.single MProp.ctrl, length := 2 },
    { pattern := "m-", property := ModPropertySpec.single MProp.alt, length := 2 },
    { pattern := "a-", property := ModPropertySpec.single MProp.alt, length := 2 },
    { pattern := "s-", property := ModPropertySpec.single MProp.shift, length := 2 },
    { pattern := "d-", property := ModPropertySpec.single MProp.superP, length := 2 },
    { pattern := "t-", property := ModPropertySpec.single MProp.meta, length := 2 } ]

/-- `modifiers[p] = true` for a single property name. -/
def setMProp (m : Modifiers) : MProp → Modifiers
  | MProp.ctrl => { m with ctrl := true }
  | MProp.alt => { m with alt := true }
  | MProp.shift => { m with shift := true }
  | MProp.meta => { m with meta := true }
  | MProp.superP => { m with superKey := true }

/-- The `Array.isArray(property)` branch of the extraction loop. -/
def applyPropertySpec (m : Modifiers) : ModPropertySpec → Modifiers
  | ModPropertySpec.single p => setMProp m p
  | ModPropertySpec.multi ps => ps.foldl setMProp m

/-- The `while (foundModifier)` loop of `parseKey`: repeatedly take the first
pattern the remaining string starts with, set its properties, and drop
`length` characters.  Every pattern in `MODIFIER_PATTERNS` has length ≥ 2,
so `remaining.length` bounds the number of iterations and serves as fuel. -/
def extractModifiersAux : Nat → String → Modifiers → Modifiers × String
  | 0, remaining, m => (m, remaining)
  | fuel + 1, remaining, m =>
    match MODIFIER_PATTERNS.find? (fun p => jsStartsWith remaining p.pattern) with
    | some p => extractModifiersAux fuel (jsDrop remaining p.length) (applyPropertySpec m p.property)
    | none => (m, remaining)

def extractModifiers (remaining : String) (m : Modifiers) : Modifiers × String :=
  extractModifiersAux (jsLength remaining) remaining m

/-- The `specialKeys` table of `parseKey` (vim key-notation aliases plus the
macOS Option-derived symbol remaps). -/
def specialKeysParse : List (String × String) :=
  [ ("<esc>", "Escape"), ("<escape>", "Escape"), ("esc", "Escape"), ("escape", "Escape"),
    ("<enter>", "Enter"), ("<cr>", "Enter"), ("<return>", "Enter"),
    ("enter", "Enter"), ("cr", "Enter"), ("return", "Enter"),
    ("<space>", " "), ("space", " "),
    ("<tab>", "Tab"), ("tab", "Tab"),
    ("<backspace>", "Backspace"), ("<bs>", "Backspace"), ("backspace", "Backspace"), ("bs", "Backspace"),
    ("<delete>", "Delete"), ("<del>", "Delete"), ("delete", "Delete"), ("del", "Delete"),
    ("<up>", "Up"), ("up", "Up"), ("<down>", "Down"), ("down", "Down"),
    ("<left>", "Left"), ("left", "Left"), ("<right>", "Right"), ("right", "Right"),
    ("<f1>", "F1"), ("f1", "F1"), ("<f2>", "F2"), ("f2", "F2"),
    ("<f3>", "F3"), ("f3", "F3"), ("<f4>", "F4"), ("f4", "F4"),
    ("<f5>", "F5"), ("f5", "F5"), ("<f6>", "F6"), ("f6", "F6"),
    ("<f7>", "F7"), ("f7", "F7"), ("<f8>", "F8"), ("f8", "F8"),
    ("<f9>", "F9"), ("f9", "F9"), ("<f10>", "F10"), ("f10", "F10"),
    ("<f11>", "F11"), ("f11", "F11"), ("<f12>", "F12"), ("f12", "F12"),
    ("<home>", "Home"), ("home", "Home"), ("<end>", "End"), ("end", "End"),
    ("<pageup>", "PageUp"), ("pageup", "PageUp"),
    ("<pagedown>", "PageDown"), ("pagedown", "PageDown"),
    ("<insert>", "Insert"), ("insert", "Insert"),
    ("<nop>", "Nop"), ("nop", "Nop"),
    ("<bar>", "|"), ("bar", "|"),
    ("<bslash>", "\\"), ("bslash", "\\"),
    ("€", "2"), ("¡", "1"), ("™", "2"), ("£", "3"), ("¢", "4"),
    ("∞", "5"), ("§", "6"), ("¶", "7"), ("•", "8"), ("ª", "9"), ("º", "0"),
    ("⁄", "1"), ("‹", "3"), ("›", "4"), ("ﬁ", "5"), ("ﬂ", "6"),
    ("‡", "7"), ("°", "8"), ("·", "9"), ("‚", "0") ]

/-- `/^[A-Z]$/.test(s)`: exactly one ASCII capital letter. -/
def isSingleUpper (s : String) : Bool :=
  match s.toList with
  | [c] => c.isUpper
  | _ => false

/-- `/^F\d+$/.test(s)` (uppercase `F`, at least one digit). -/
def isUpperFNum (s : String) : Bool :=
  match s.toList with
  | 'F' :: ds => !ds.isEmpty && ds.all Char.isDigit
  | _ => false

/-- `/^f\d+$/.test(s)` (lowercase `f`, at least one digit). -/
def isLowerFNum (s : String) : Bool :=
  match s.toList with
  | 'f' :: ds => !ds.isEmpty && ds.all Char.isDigit
  | _ => false

/-- `/^F\d+$/i.test(s)`. -/
def isFNumCaseless (s : String) : Bool :=
  match s.toList with
  | c :: ds => (c = 'F' || c = 'f') && !ds.isEmpty && ds.all Char.isDigit
  | _ => false

/-- `MODIFIER_TO_STRING`: modifier prefixes in vim order `C- M- S- D- T-`. -/
def MODIFIER_TO_STRING : List (MProp × String) :=
  [ (MProp.ctrl, "C-"), (MProp.alt, "M-"), (MProp.shift, "S-"),
    (MProp.superP, "D-"), (MProp.meta, "T-") ]

def Modifiers.getProp (m : Modifiers) : MProp → Bool
  | MProp.ctrl => m.ctrl
  | MProp.alt => m.alt
  | MProp.shift => m.shift
  | MProp.meta => m.meta
  | MProp.superP => m.superKey

/-- The `reverseSpecial` table of `keyToString`. -/
def reverseSpecial : List (String × String) :=
  [ ("Escape", "<Esc>"), ("Enter", "<Enter>"), (" ", "<Space>"), ("Tab", "<Tab>"),
    ("Backspace", "<Backspace>"), ("Delete", "<Delete>"),
    ("Up", "<Up>"), ("Down", "<Down>"), ("Left", "<Left>"), ("Right", "<Right>"),
    ("Home", "<Home>"), ("End", "<End>"), ("PageUp", "<PageUp>"), ("PageDown", "<PageDown>"),
    ("Insert", "<Insert>"),
    ("F1", "<F1>"), ("F2", "<F2>"), ("F3", "<F3>"), ("F4", "<F4>"),
    ("F5", "<F5>"), ("F6", "<F6>"), ("F7", "<F7>"), ("F8", "<F8>"),
    ("F9", "<F9>"), ("F10", "<F10>"), ("F11", "<F11>"), ("F12", "<F12>"),
    ("Nop", "<Nop>"), ("|", "<Bar>"), ("\\", "<Bslash>") ]

/-- `keyToString(keyObj)`: emit the modifier prefixes in fixed order followed
by the key, substituting the reverse special-key table. -/
def keyToString (key : String) (modifiers : Modifiers) : String :=
  let str := MODIFIER_TO_STRING.foldl
    (fun acc pair => if modifiers.getProp pair.1 then acc ++ pair.2 else acc) ""
  str ++ ((reverseSpecial.lookup key).getD key)

/-- A normalized key: canonical internal key name, modifier set, and the
canonical display string produced by `keyToString`. -/
structure NKey where
  key : String
  modifiers : Modifiers
  string : String
deriving DecidableEq

/-- `parseKey(keyString)`.  The module-level `PLACEHOLDERS` map is empty at
initialisation and no claim registers a placeholder, so the recursive
placeholder-resolution branch at the top of the source function never fires
and is omitted here. -/
def parseKey (keyString : String) : NKey :=
  -- `?` / `<?>` are special-cased to Shift+`/`
  let processedKeyString := if keyString = "?" || keyString = "<?>" then "<S-/>" else keyString
  let modifiers := Modifiers.allFalse
  let key0 := processedKeyString
  -- strip enclosing `<...>` if present
  let content :=
    if jsStartsWith key0 "<" && jsEndsWith key0 ">" then jsDropRight (jsDrop key0 1) 1 else key0
  let hadBrackets := jsStartsWith processedKeyString "<" && jsEndsWith processedKeyString ">"
  let originalKeyIsCapital := !hadBrackets && isSingleUpper content
  -- modifier-prefix extraction over the lowercased content
  let em := extractModifiers (jsToLower content) modifiers
  let modifiers := em.1
  let key1 := em.2
  -- bare capital single letter outside brackets implies shift
  let modifiers := if originalKeyIsCapital then { modifiers with shift := true } else modifiers
  -- special-key lookup: bracketed form first, then bare form, then `f\d+`
  let lookupKey := if hadBrackets then "<" ++ key1 ++ ">" else key1
  let key2 :=
    match specialKeysParse.lookup lookupKey with
    | some v => v
    | none =>
      match specialKeysParse.lookup key1 with
      | some v => v
      | none => if isLowerFNum key1 then jsToUpper key1 else key1
  -- internal representation: function keys stay uppercase, others lowercase
  let internalKey := if jsStartsWith key2 "F" && isUpperFNum key2 then key2 else jsToLower key2
  { key := internalKey, modifiers := modifiers, string := keyToString key2 modifiers }

/-- The tokenizer loop of `parseKeySequence`: `<...>` spans are atomic
tokens, all other characters are single-character tokens.  The `i ===
length-1` test of the source corresponds to the tail being empty. -/
def seqTokensAux : List Char → String → Bool → List String
  | [], _, _ => []
  | '<' :: rest, current, _ =>
    (if current ≠ "" then current.toList.map (fun ch => String.mk [ch]) else []) ++
      seqTokensAux rest "<" true
  | '>' :: rest, current, _ => (current ++ ">") :: seqTokensAux rest "" false
  | c :: rest, current, inBracket =>
    let current' := current.push c
    if !inBracket && rest.isEmpty then current'.toList.map (fun ch => String.mk [ch])
    else seqTokensAux rest current' inBracket

/-- `parseKeySequence(str)`. -/
def parseKeySequence (keySequenceString : String) : List NKey :=
  (seqTokensAux keySequenceString.toList "" false).map parseKey

/-- `keysMatch(a, b)`: structural equality over key and all five modifier
flags (the `string` field is not compared). -/
def keysMatch (key1 key2 : NKey) : Bool :=
  key1.key = key2.key &&
  key1.modifiers.ctrl = key2.modifiers.ctrl &&
  key1.modifiers.alt = key2.modifiers.alt &&
  key1.modifiers.shift = key2.modifiers.shift &&
  key1.modifiers.meta = key2.modifiers.meta &&
  key1.modifiers.superKey = key2.modifiers.superKey

/-- The shape of a DOM `KeyboardEvent` the core reads. -/
structure KeyboardEvent where
  key : String
  ctrlKey : Bool
  altKey : Bool
  shiftKey : Bool
  metaKey : Bool
deriving DecidableEq

/-- The event-side macOS symbol remap table of `eventToKey`. -/
def specialKeysEvent : List (String × String) :=
  [ ("⁄", "1"), ("€", "2"), ("‹", "3"), ("›", "4"), ("ﬁ", "5"),
    ("ﬂ", "6"), ("‡", "7"), ("°", "8"), ("·", "9"), ("‚", "0"),
    ("¡", "1"), ("™", "2"), ("£", "3"), ("¢", "4"), ("∞", "5"),
    ("§", "6"), ("¶", "7"), ("•", "8"), ("ª", "9"), ("º", "0") ]

/-- `/^[A-Za-z]$/.test(s)`. -/
def isSingleLetter (s : String) : Bool :=
  match s.toList with
  | [c] => c.isAlpha
  | _ => false

/-- `eventToKey(event)`: modifier booleans are read off the event with a
platform meta press recorded as `super` (never double-counted); `?`+Shift is
normalised to `/`+Shift; the macOS symbol remap runs before the ordered
normalization battery (Arrow* → strip prefix, `F\d+` → uppercase, single
letter → lowercase with implicit shift when capital, catch-all →
unchanged). -/
def eventToKey (event : KeyboardEvent) : NKey :=
  let modifiers : Modifiers :=
    { ctrl := event.ctrlKey, alt := event.altKey, shift := event.shiftKey,
      meta := event.metaKey, superKey := false }
  -- treat metaKey as super (vim `D-`), not meta
  let modifiers :=
    if event.metaKey then { modifiers with superKey := true, meta := false } else modifiers
  let key0 := event.key
  let key0 := if key0 = "?" && event.shiftKey then "/" else key0
  let key1 :=
    match specialKeysEvent.lookup key0 with
    | some v => v
    | none => key0
  -- first matching normalization pattern wins; the Arrow guard makes the
  -- source's `replace('Arrow','')` equal to dropping the 5-char prefix
  let step :=
    if jsStartsWith key1 "Arrow" then (jsDrop key1 5, false)
    else if isFNumCaseless key1 then (jsToUpper key1, false)
    else if isSingleLetter key1 then (jsToLower key1, isSingleUpper key1)
    else (key1, false)
  let normalizedKey := step.1
  let modifiers := if step.2 then { modifiers with shift := true } else modifiers
  let internalKey :=
    if jsStartsWith normalizedKey "F" && isFNumCaseless normalizedKey then normalizedKey
    else jsToLower normalizedKey
  { key := internalKey, modifiers := modifiers,
    string := keyToString normalizedKey modifiers }

/-! ## Trie (`core/trie.js`)

The boolean-`isCompletable` variant used by the `KeyProcessor` of
`src/unnamed/part_016`.  `children` is a JavaScript `Map`, modelled as an
insertion-ordered association list with `Map.set` replace-or-append
semantics.  Each node also owns six lifecycle `Hook` instances; the
processor only ever *triggers* them, so they are modelled as emitted events
(`Event.nodeOn...` below) rather than stored listener lists. -/

/-- A `metadata.repeat` value: the source stores either a boolean or an
object `{interval}` (whose `interval` may be absent). -/
inductive RepeatOption : Type
  | boolVal (b : Bool)
  | objVal (interval : Option Nat)
deriving DecidableEq

structure Metadata where
  repeatOpt : Option RepeatOption
deriving DecidableEq

inductive TrieNode : Type where
  | mk (key : Option String) (isCompletable : Bool) (forwardOnNonMatch : Bool)
       (metadata : Metadata) (children : List (String × TrieNode))

def TrieNode.key : TrieNode → Option String
  | TrieNode.mk k _ _ _ _ => k

def TrieNode.isCompletable : TrieNode → Bool
  | TrieNode.mk _ c _ _ _ => c

def TrieNode.forwardOnNonMatch : TrieNode → Bool
  | TrieNode.mk _ _ f _ _ => f

def TrieNode.metadata : TrieNode → Metadata
  | TrieNode.mk _ _ _ m _ => m

def TrieNode.children : TrieNode → List (String × TrieNode)
  | TrieNode.mk _ _ _ _ cs => cs

/-- `Map.set`: replace the value at an existing key in place, else append. -/
def jsMapSet {β : Type} : List (String × β) → String → β → List (String × β)
  | [], k, v => [(k, v)]
  | (k', v') :: rest, k, v =>
    if k' = k then (k, v) :: rest else (k', v') :: jsMapSet rest k v

/-- `getChild(key)`: `children.get(key)`. -/
def TrieNode.getChild (n : TrieNode) (k : String) : Option TrieNode :=
  n.children.lookup k

/-- `hasChildren()`: `children.size > 0`. -/
def TrieNode.hasChildren (n : TrieNode) : Bool := !n.children.isEmpty

/-- `canComplete()`. -/
def TrieNode.canComplete (n : TrieNode) : Bool := n.isCompletable

/-- `isAmbiguous()`: completable and has children. -/
def TrieNode.isAmbiguous (n : TrieNode) : Bool :=
  n.isCompletable && !n.children.isEmpty

/-- `new TrieNode(key)` with default options (as created during `insert`). -/
def TrieNode.new (k : Option String) : TrieNode :=
  TrieNode.mk k false false { repeatOpt := none } []

structure Trie where
  root : TrieNode

/-- `new Trie()`: root node with `key = null` and
`forwardOnNonMatch` overridden to `true`. -/
def emptyTrie : Trie :=
  { root := TrieNode.mk none false true { repeatOpt := none } [] }

/-- The `options` argument of `Trie.insert` (only `repeat` is read). -/
structure InsertOptions where
  repeatOpt : Option RepeatOption
deriving DecidableEq

/-- The walk/create loop of `Trie.insert`, plus the final-node update:
mark `isCompletable` and store `options.repeat` into the metadata when
given.  Mutating a shared child in place corresponds to replacing its entry
(at its position) in the parent's child map. -/
def insertNode : TrieNode → List String → InsertOptions → TrieNode
  | TrieNode.mk k _ f m cs, [], options =>
    match options.repeatOpt with
    | some r => TrieNode.mk k true f { repeatOpt := some r } cs
    | none => TrieNode.mk k true f m cs
  | n, key :: rest, options =>
    let child :=
      match n.getChild key with
      | some c => c
      | none => TrieNode.new (some key)
    let child' := insertNode child rest options
    TrieNode.mk n.key n.isCompletable n.forwardOnNonMatch n.metadata
      (jsMapSet n.children key child')

def Trie.insert (t : Trie) (keySequence : List String) (options : InsertOptions) : Trie :=
  { root := insertNode t.root keySequence options }

/-- The pure walk of `Trie.find`: `null` on the first missing edge. -/
def findNode : TrieNode → List String → Option TrieNode
  | n, [] => some n
  | n, key :: rest =>
    match n.getChild key with
    | none => none
    | some child => findNode child rest

def Trie.find (t : Trie) (keySequence : List String) : Option TrieNode :=
  findNode t.root keySequence

/-- `Trie.find` with the trie threaded through, mirroring that the source's
loop performs no assignment to any node: the trie comes back unchanged. -/
def Trie.findT (t : Trie) (keySequence : List String) : Option TrieNode × Trie :=
  (findNode t.root keySequence, t)

/-! ## Key Processor (`src/unnamed/part_016`)

The processor state.  JavaScript node references are modelled as *paths*
(lists of edge labels from the current root): `currentNode` is the node at
`currentPath` in `currentRoot`, and each `matchedPath` entry is the path of
the node that was pushed.  This keeps the embedding faithful to in-place
trie mutation (`set` inserting into the shared trie is visible through
`currentNode`, exactly as through a live reference).

Platform timers: `liveTimeouts` / `liveIntervals` record what is currently
scheduled, together with the data captured by the closure handed to
`setTimeout` / `setInterval`; `nextTimerId` supplies fresh ids.  A firing is
a separate step (`fireTimeout` / `fireInterval`) that runs the closure body.

`Hook.trigger` calls are recorded as `Event`s.  The `onKey` hook is the one
hook whose listener *return values* the processor inspects; each processing
call therefore takes the list of values the registered listeners would
return (`OnKeyResult` keeps exactly the distinctions the source makes:
`=== true`, `=== false`, anything else), whose length is the listener
count. -/

inductive TimerType : Type
  | SEQUENCE
  | AMBIGUOUS
deriving DecidableEq

structure SequenceInfo where
  keySequence : List String
  mode : String
deriving DecidableEq

inductive Event : Type
  | onKeyTriggered
  | onNodeMatched (path : List String)
  | onSequenceReset
  | onSequenceComplete (info : SequenceInfo)
  | onAmbiguousTimeout (info : SequenceInfo)
  | onActionExecuted
  | onRepeatStart (info : SequenceInfo)
  | onRepeat (info : SequenceInfo)
  | onRepeatEnd (info : SequenceInfo)
  | nodeOnMatched (path : List String)
  | nodeOnChildMatched (path : List String)
  | nodeOnNotMatched (path : List String)
  | nodeOnNoChildMatched (path : List String)
  | nodeOnBranchFailed (path : List String)
  | nodeOnSequenceComplete (path : List String)
deriving DecidableEq

structure HeldKey where
  intervalId : Nat
  sequenceInfo : SequenceInfo
deriving DecidableEq

structure ScheduledTimeout where
  id : Nat
  capturedType : TimerType
  duration : Nat
deriving DecidableEq

structure ScheduledInterval where
  id : Nat
  interval : Nat
  capturedInfo : SequenceInfo
deriving DecidableEq

/-- A single listener's return value as the source distinguishes it. -/
inductive OnKeyResult : Type
  | definiteTrue
  | definiteFalse
  | indefinite
deriving DecidableEq

structure KeyProcessor where
  modes : List (String × Trie)
  defaultMode : String
  currentMode : String
  currentRoot : Trie
  currentPath : List String
  matchedPath : List (List String)
  keyTimeout : Nat
  ambiguityTimeout : Nat
  repeatInterval : Nat
  timeoutId : Option Nat
  timeoutType : Option TimerType
  pendingAmbiguousSequence : Option (List String)
  forceExecuteKeys : List String
  heldKeys : List (String × HeldKey)
  isActive : Bool
  liveTimeouts : List ScheduledTimeout
  liveIntervals : List ScheduledInterval
  nextTimerId : Nat

/-- State plus emitted hook events. -/
structure StepOut where
  st : KeyProcessor
  ev : List Event

/-- State, emitted hook events, and the boolean the method returns. -/
structure ProcOut where
  st : KeyProcessor
  ev : List Event
  ret : Bool

/-- Constructor options (only the fields the claims exercise). -/
structure KeyProcessorOptions where
  keyTimeout : Option Nat
  ambiguityTimeout : Option Nat
  forceExecuteKeys : Option (List String)
  repeatInterval : Option Nat
  defaultMode : Option String
deriving DecidableEq

/-- The constructor: initialise the default mode, point `currentRoot` at its
trie and `currentNode` at that trie's root. -/
def KeyProcessor.new (options : KeyProcessorOptions) : KeyProcessor :=
  let defaultMode := options.defaultMode.getD "n"
  { modes := [(defaultMode, emptyTrie)]
    defaultMode := defaultMode
    currentMode := defaultMode
    currentRoot := emptyTrie
    currentPath := []
    matchedPath := []
    keyTimeout := options.keyTimeout.getD 1000
    ambiguityTimeout := options.ambiguityTimeout.getD 300
    repeatInterval := options.repeatInterval.getD 50
    timeoutId := none
    timeoutType := none
    pendingAmbiguousSequence := none
    forceExecuteKeys := options.forceExecuteKeys.getD ["<Enter>"]
    heldKeys := []
    isActive := true
    liveTimeouts := []
    liveIntervals := []
    nextTimerId := 0 }

/-- The node `currentNode` refers to.  In the source `currentNode` is never
null (constructor and every reset point it at a live root); the `getD`
fallback is never taken on reachable states. -/
def KeyProcessor.currentNodeD (s : KeyProcessor) : TrieNode :=
  (findNode s.currentRoot.root s.currentPath).getD s.currentRoot.root

/-- The key (edge label) of the node at a path; `none` for the root,
mirroring `node.key`. -/
def keyOfPath (p : List String) : Option String := p.getLast?

/-- `array.filter(Boolean)` over possibly-null key strings: drops `null`
and the empty string. -/
def filterBooleanStr (l : List (Option String)) : List String :=
  l.filterMap fun o =>
    match o with
    | some str => if str = "" then none else some str
    | none => none

/-- `getMatchedSequence()` — also the expression inlined at the
`pendingAmbiguousSequence` assignment and at sequence completion:
`[...this.matchedPath.map(n => n.key).filter(Boolean),
this.currentNode?.key].filter(Boolean)`. -/
def KeyProcessor.getMatchedSequence (s : KeyProcessor) : List String :=
  let inner := filterBooleanStr (s.matchedPath.map keyOfPath)
  filterBooleanStr (inner.map some ++ [keyOfPath s.currentPath])

/-- `clearTimeout()`: cancel the scheduled timeout (if any) and clear the
bookkeeping fields. -/
def KeyProcessor.clearTimer (s : KeyProcessor) : KeyProcessor :=
  match s.timeoutId with
  | some i =>
    { s with liveTimeouts := s.liveTimeouts.filter (fun t => t.id ≠ i),
             timeoutId := none, timeoutType := none }
  | none => { s with timeoutType := none }

/-- `resetToRoot()`: point `currentNode` back at the current root, empty
`matchedPath`, cancel the timer, fire `onSequenceReset`. -/
def KeyProcessor.resetToRoot (s : KeyProcessor) : StepOut :=
  let s := { s with currentPath := [], matchedPath := [] }
  let s := s.clearTimer
  { st := s, ev := [Event.onSequenceReset] }

/-- `setTimer(type)`: cancel the previous timer, then schedule a fresh one
whose closure captures `type`; duration is `ambiguityTimeout` for
`AMBIGUOUS`, else `keyTimeout`. -/
def KeyProcessor.setTimer (s : KeyProcessor) (type : TimerType) : KeyProcessor :=
  let s := s.clearTimer
  let s := { s with timeoutType := some type }
  let duration := if type = TimerType.AMBIGUOUS then s.ambiguityTimeout else s.keyTimeout
  { s with timeoutId := some s.nextTimerId,
           liveTimeouts := s.liveTimeouts ++ [⟨s.nextTimerId, type, duration⟩],
           nextTimerId := s.nextTimerId + 1 }

/-- `isForceExecuteKey(key)`. -/
def KeyProcessor.isForceExecuteKey (s : KeyProcessor) (key : NKey) : Bool :=
  s.forceExecuteKeys.contains key.string

/-- `callCompletionHooks()`: per-node `onSequenceComplete` along
`matchedPath`, then on the current root (path `[]`). -/
def KeyProcessor.callCompletionHooks (s : KeyProcessor) : List Event :=
  s.matchedPath.map Event.nodeOnSequenceComplete ++ [Event.nodeOnSequenceComplete []]

/-- `stopRepeating(keyString)`: clear that key's interval, fire
`onRepeatEnd`, drop the held entry. -/
def KeyProcessor.stopRepeating (s : KeyProcessor) (keyString : String) : StepOut :=
  match s.heldKeys.lookup keyString with
  | some heldKey =>
    { st := { s with
        liveIntervals := s.liveIntervals.filter (fun iv => iv.id ≠ heldKey.intervalId),
        heldKeys := s.heldKeys.filter (fun p => p.1 ≠ keyString) },
      ev := [Event.onRepeatEnd heldKey.sequenceInfo] }
  | none => { st := s, ev := [] }

/-- `startRepeating(keyString, sequenceInfo, customInterval)`:
cancel-then-start, fire `onRepeatStart`, schedule the interval, record the
held key. -/
def KeyProcessor.startRepeating (s : KeyProcessor) (keyString : String)
    (sequenceInfo : SequenceInfo) (customInterval : Option Nat) : StepOut :=
  let r := s.stopRepeating keyString
  let s := r.st
  let interval := customInterval.getD s.repeatInterval
  let intervalId := s.nextTimerId
  let s := { s with
    liveIntervals := s.liveIntervals ++ [⟨intervalId, interval, sequenceInfo⟩],
    heldKeys := jsMapSet s.heldKeys keyString ⟨intervalId, sequenceInfo⟩,
    nextTimerId := intervalId + 1 }
  { st := s, ev := r.ev ++ [Event.onRepeatStart sequenceInfo] }

/-- `stopAllRepeating()`: clear every held key's interval (firing
`onRepeatEnd` for each, in map order) and empty `heldKeys`. -/
def KeyProcessor.stopAllRepeating (s : KeyProcessor) : StepOut :=
  let ids := s.heldKeys.map (fun p => p.2.intervalId)
  { st := { s with
      liveIntervals := s.liveIntervals.filter (fun iv => !ids.contains iv.id),
      heldKeys := [] },
    ev := s.heldKeys.map (fun p => Event.onRepeatEnd p.2.sequenceInfo) }

/-- A scheduled `setTimeout` firing.  The platform removes the one-shot
timer, then the closure from `setTimer` runs: on a captured `AMBIGUOUS` type
with a (non-null) pending sequence it fires `onAmbiguousTimeout` and the
completion hooks; in all cases it ends with `resetToRoot()`. -/
def KeyProcessor.fireTimeout (s : KeyProcessor) (i : Nat) : StepOut :=
  match s.liveTimeouts.find? (fun t => t.id = i) with
  | none => { st := s, ev := [] }
  | some t =>
    let s := { s with liveTimeouts := s.liveTimeouts.filter (fun u => u.id ≠ i) }
    if t.capturedType = TimerType.AMBIGUOUS && s.pendingAmbiguousSequence.isSome then
      let info : SequenceInfo := ⟨s.pendingAmbiguousSequence.getD [], s.currentMode⟩
      let ev := Event.onAmbiguousTimeout info :: s.callCompletionHooks
      let r := s.resetToRoot
      { st := r.st, ev := ev ++ r.ev }
    else
      let r := s.resetToRoot
      { st := r.st, ev := r.ev }

/-- A scheduled `setInterval` tick: the closure fires `onRepeat` with the
captured sequence info; the interval stays scheduled. -/
def KeyProcessor.fireInterval (s : KeyProcessor) (i : Nat) : StepOut :=
  match s.liveIntervals.find? (fun iv => iv.id = i) with
  | some iv => { st := s, ev := [Event.onRepeat iv.capturedInfo] }
  | none => { st := s, ev := [] }

/-- `repeatOption === true || (typeof repeatOption === 'object' && repeatOption
!== null)`: whether the metadata requests repeat dispatch. -/
def repeatRequested : Option RepeatOption → Bool
  | some (RepeatOption.boolVal b) => b
  | some (RepeatOption.objVal _) => true
  | none => false

/-- `typeof repeatOption === 'object' ? repeatOption.interval : null`. -/
def repeatIntervalOf : Option RepeatOption → Option Nat
  | some (RepeatOption.objVal iv) => iv
  | _ => none

/-- `processKeyCore(key, event)`: the trie walk. -/
def KeyProcessor.processKeyCore (s : KeyProcessor) (key : NKey) : ProcOut :=
  let cur := s.currentNodeD
  match cur.getChild key.string with
  | some child =>
    let previousPath := s.currentPath
    let s := { s with currentPath := s.currentPath ++ [key.string],
                      matchedPath := s.matchedPath ++ [previousPath] }
    let ev1 := [Event.nodeOnChildMatched previousPath,
                Event.onNodeMatched s.currentPath,
                Event.nodeOnMatched s.currentPath]
    if child.isAmbiguous then
      let s := { s with pendingAmbiguousSequence := some s.getMatchedSequence }
      let s := s.setTimer TimerType.AMBIGUOUS
      { st := s, ev := ev1, ret := false }
    else if child.canComplete then
      let info : SequenceInfo := ⟨s.getMatchedSequence, s.currentMode⟩
      let repeatOption := child.metadata.repeatOpt
      let r2 : StepOut :=
        if repeatRequested repeatOption then
          s.startRepeating key.string info (repeatIntervalOf repeatOption)
        else { st := s, ev := [Event.onSequenceComplete info] }
      let ev3 := r2.st.callCompletionHooks
      let r3 := r2.st.resetToRoot
      { st := r3.st, ev := ev1 ++ r2.ev ++ ev3 ++ [Event.onActionExecuted] ++ r3.ev,
        ret := false }
    else
      { st := s.setTimer TimerType.SEQUENCE, ev := ev1, ret := false }
  | none =>
    let hadChildren := cur.hasChildren
    if cur.isAmbiguous && s.pendingAmbiguousSequence.isSome then
      let info : SequenceInfo := ⟨s.pendingAmbiguousSequence.getD [], s.currentMode⟩
      let ev := Event.onSequenceComplete info :: (s.callCompletionHooks ++ [Event.onActionExecuted])
      let r := s.resetToRoot
      { st := r.st, ev := ev ++ r.ev, ret := true }
    else
      let ev := Event.nodeOnNotMatched s.currentPath ::
        ((if hadChildren then [Event.nodeOnNoChildMatched s.currentPath] else []) ++
          s.matchedPath.map Event.nodeOnBranchFailed)
      let shouldForward := cur.forwardOnNonMatch
      let r := s.resetToRoot
      { st := r.st, ev := ev ++ r.ev, ret := shouldForward }

/-- The `for (const result of results)` loop over the `onKey` listener
results: the first `=== true` / `=== false` wins. -/
def firstStance : List OnKeyResult → Option Bool
  | [] => none
  | OnKeyResult.definiteTrue :: _ => some true
  | OnKeyResult.definiteFalse :: _ => some false
  | OnKeyResult.indefinite :: rest => firstStance rest

/-- `processKeyInternal(key, event)`: `onKey` listeners first (a `true`
consumes, a `false` forwards), then the force-execute check on an ambiguous
node, then `processKeyCore`. -/
def KeyProcessor.processKeyInternal (s : KeyProcessor) (key : NKey)
    (onKeyResults : List OnKeyResult) : ProcOut :=
  let ev0 := [Event.onKeyTriggered]
  match firstStance onKeyResults with
  | some true => { st := s, ev := ev0, ret := false }
  | some false => { st := s, ev := ev0, ret := true }
  | none =>
    if s.currentNodeD.isAmbiguous && s.pendingAmbiguousSequence.isSome &&
        s.isForceExecuteKey key then
      let info : SequenceInfo := ⟨s.pendingAmbiguousSequence.getD [], s.currentMode⟩
      let ev := ev0 ++ (Event.onSequenceComplete info ::
        (s.callCompletionHooks ++ [Event.onActionExecuted]))
      let r := s.resetToRoot
      { st := r.st, ev := ev ++ r.ev, ret := false }
    else
      let r := s.processKeyCore key
      { st := r.st, ev := ev0 ++ r.ev, ret := r.ret }

/-- `processKeyParsed(key)`: with at least one `onKey` listener registered,
return whether some listener result `=== true` and do nothing else;
otherwise fall through to `processKeyCore` (negating its forward flag). -/
def KeyProcessor.processKeyParsed (s : KeyProcessor) (key : NKey)
    (onKeyResults : List OnKeyResult) : ProcOut :=
  if onKeyResults.length > 0 then
    { st := s, ev := [Event.onKeyTriggered],
      ret := onKeyResults.contains OnKeyResult.definiteTrue }
  else
    let r := s.processKeyCore key
    { st := r.st, ev := r.ev, ret := !r.ret }

def modifierKeys : List String := ["Shift", "Control", "Alt", "Meta"]

/-- `processKeyEvent(event)`: ignore pure modifier presses and inactive
processors; otherwise normalise the event and run `processKeyInternal`;
a forwarded key additionally clears the pending timer and returns `false`,
a consumed key returns `true` (after `preventDefault`). -/
def KeyProcessor.processKeyEvent (s : KeyProcessor) (event : KeyboardEvent)
    (onKeyResults : List OnKeyResult) : ProcOut :=
  if !s.isActive then { st := s, ev := [], ret := false }
  else if modifierKeys.contains event.key then { st := s, ev := [], ret := false }
  else
    let key := eventToKey event
    let r := s.processKeyInternal key onKeyResults
    if r.ret then { st := r.st.clearTimer, ev := r.ev, ret := false }
    else { st := r.st, ev := r.ev, ret := true }

/-- `handleKeyUp(event)`: for a non-modifier key on an active processor,
stop that key's repeat. -/
def KeyProcessor.handleKeyUp (s : KeyProcessor) (event : KeyboardEvent) : StepOut :=
  if !s.isActive then { st := s, ev := [] }
  else if modifierKeys.contains event.key then { st := s, ev := [] }
  else s.stopRepeating (eventToKey event).string

/-- `initMode(name)`: lazily create an empty trie for the mode. -/
def KeyProcessor.initMode (s : KeyProcessor) (modeName : String) : KeyProcessor :=
  if (s.modes.lookup modeName).isSome then s
  else { s with modes := jsMapSet s.modes modeName emptyTrie }

/-- `setMode(name)`: stop all repeats, switch mode and root, reset to
root. -/
def KeyProcessor.setMode (s : KeyProcessor) (modeName : String) : StepOut :=
  let r := s.stopAllRepeating
  let s := r.st
  let s := if (s.modes.lookup modeName).isSome then s else s.initMode modeName
  let s := { s with currentMode := modeName,
                    currentRoot := (s.modes.lookup modeName).getD emptyTrie }
  let r2 := s.resetToRoot
  { st := r2.st, ev := r.ev ++ r2.ev }

/-- `set(sequence)`: parse the notation and insert the key strings into the
current mode's trie.  The source mutates the trie object shared between
`currentRoot` and `modes[currentMode]`, so both views are updated. -/
def KeyProcessor.set (s : KeyProcessor) (sequence : String) : KeyProcessor :=
  let keys := parseKeySequence sequence
  let keyStrings := keys.map (fun k => k.string)
  let t := s.currentRoot.insert keyStrings { repeatOpt := none }
  { s with currentRoot := t, modes := jsMapSet s.modes s.currentMode t }

/-- `clear()`: replace the current mode's trie with a fresh one and reset. -/
def KeyProcessor.clear (s : KeyProcessor) : StepOut :=
  let s := { s with modes := jsMapSet s.modes s.currentMode emptyTrie }
  let s := { s with currentRoot := (s.modes.lookup s.currentMode).getD emptyTrie }
  s.resetToRoot

/-- `clearAll()`: drop every mode, re-initialise the default mode, switch to
it. -/
def KeyProcessor.clearAll (s : KeyProcessor) : StepOut :=
  let s := { s with modes := [] }
  let s := s.initMode s.defaultMode
  s.setMode s.defaultMode

/-- `reset()`. -/
def KeyProcessor.reset (s : KeyProcessor) : StepOut :=
  let r1 := s.stopAllRepeating
  let r2 := r1.st.resetToRoot
  let r3 := r2.st.setMode r2.st.defaultMode
  { st := r3.st, ev := r1.ev ++ r2.ev ++ r3.ev }

/-- The `configure({...})` fields the claims touch (`ctx` only feeds the
context snapshot handed to hooks, which the event trace does not carry). -/
structure ConfigureOptions where
  keyTimeout : Option Nat
  ambiguityTimeout : Option Nat
  defaultMode : Option String
  forceExecuteKeys : Option (List String)
deriving DecidableEq

def KeyProcessor.configure (s : KeyProcessor) (c : ConfigureOptions) : KeyProcessor :=
  let s := match c.keyTimeout with | some v => { s with keyTimeout := v } | none => s
  let s := match c.ambiguityTimeout with | some v => { s with ambiguityTimeout := v } | none => s
  let s := match c.defaultMode with | some v => { s with defaultMode := v } | none => s
  match c.forceExecuteKeys with | some v => { s with forceExecuteKeys := v } | none => s

/-! ## Shared lemmas -/

/-- `jsMapSet` stores the value at its key. -/
theorem lookup_jsMapSet_self {β : Type} (l : List (String × β)) (k : String) (v : β) :
    (jsMapSet l k v).lookup k = some v := by
  induction l with
  | nil => simp [jsMapSet, List.lookup]
  | cons p rest ih =>
    obtain ⟨pk, pv⟩ := p
    by_cases h : pk = k
    · subst h
      simp [jsMapSet, List.lookup]
    · have hbeq : (k == pk) = false := beq_eq_false_iff_ne.mpr (Ne.symm h)
      simp [jsMapSet, h, List.lookup, hbeq, ih]

/-- `insert` marks the final node of the inserted sequence completable and
stores the `repeat` option into its metadata. -/
theorem insertNode_find (ks : List String) (n : TrieNode) (options : InsertOptions) :
    ∃ m, findNode (insertNode n ks options) ks = some m ∧
      m.isCompletable = true ∧
      (∀ r, options.repeatOpt = some r → m.metadata.repeatOpt = some r) := by
  induction ks generalizing n with
  | nil =>
    cases n with
    | mk k c f md cs =>
      cases hro : options.repeatOpt with
      | some r =>
        refine ⟨TrieNode.mk k true f { repeatOpt := some r } cs, ?_, rfl, ?_⟩
        · simp [insertNode, hro, findNode]
        · intro r2 h2
          cases h2
          rfl
      | none =>
        refine ⟨TrieNode.mk k true f md cs, ?_, rfl, ?_⟩
        · simp [insertNode, hro, findNode]
        · intro r2 h2
          simp at h2
  | cons key rest ih =>
    cases n with
    | mk k c f md cs =>
      simp only [insertNode, TrieNode.key, TrieNode.isCompletable, TrieNode.forwardOnNonMatch,
        TrieNode.metadata, TrieNode.children]
      set ch : TrieNode :=
        (match (TrieNode.mk k c f md cs).getChild key with
         | some c0 => c0
         | none => TrieNode.new (some key)) with hch
      obtain ⟨m, hfind, hcomp, hmeta⟩ := ih ch
      refine ⟨m, ?_, hcomp, hmeta⟩
      simp only [findNode, TrieNode.getChild, TrieNode.children]
      rw [lookup_jsMapSet_self]
      exact hfind

/-- `triggerAux` computed in closed form: positional results, and the
routing record of `(index, error)` pairs for throwing listeners. -/
theorem triggerAux_spec {α ρ ε : Type} (es : List (HookEntry α ρ ε)) (i : Nat) (a : α) :
    (triggerAux es i a).1 = es.map (fun e =>
        match e.listener a with
        | Except.ok v => some v
        | Except.error _ => none) ∧
    (triggerAux es i a).2 = (es.enumFrom i).filterMap (fun p =>
        match p.2.listener a with
        | Except.ok _ => none
        | Except.error err => some (p.1, err)) := by
  induction es generalizing i with
  | nil => simp [triggerAux]
  | cons e rest ih =>
    cases hl : e.listener a with
    | ok v => simp [triggerAux, hl, List.enumFrom, (ih (i + 1)).1, (ih (i + 1)).2]
    | error err => simp [triggerAux, hl, List.enumFrom, (ih (i + 1)).1, (ih (i + 1)).2]

/-- C6: `Hook.trigger` invokes every registered listener synchronously in
registration order (`register` appends) and returns their results
positionally; a throwing listener's error is routed to that listener's own
`onError`, subsequent listeners still run, and the throwing slot's result is
`undefined` (`none`); with one throwing listener before one normal listener
the results are `[undefined, secondResult]`. -/
theorem hook_trigger_spec (α ρ ε : Type) (h : Hook α ρ ε) (a : α) :
    (h.trigger a).1 = h.entries.map (fun e =>
        match e.listener a with
        | Except.ok v => some v
        | Except.error _ => none) ∧
    (h.trigger a).2 = h.entries.enum.filterMap (fun p =>
        match p.2.listener a with
        | Except.ok _ => none
        | Except.error err => some (p.1, err)) ∧
    (∀ (l : α → Except ε ρ) (oe : Option (ε → Except Unit Unit)),
      (h.register l oe).entries =
        h.entries ++ [{ listener := l, onError := oe.getD defaultOnError }]) ∧
    (∀ (err : ε) (f : α → ρ),
      Hook.trigger
        { entries := [{ listener := fun _ => Except.error err, onError := defaultOnError },
                      { listener := fun x => Except.ok (f x), onError := defaultOnError }] } a =
        ([none, some (f a)], [(0, err)])) := by
  refine ⟨(triggerAux_spec h.entries 0 a).1, ?_, ?_, ?_⟩
  · have := (triggerAux_spec h.entries 0 a).2
    simpa [List.enum] using this
  · intro l oe
    rfl
  · intro err f
    rfl

/-- C7: `parseKey("<C-a>")` round-trips through `keyToString` to `"C-a"`,
and `parseKey("A")` yields key `"a"` with shift set, matching
`parseKey("<S-a>")` under `keysMatch`. -/
theorem parseKey_roundtrip_spec :
    (parseKey "<C-a>").string = "C-a" ∧
    (parseKey "A").key = "a" ∧
    (parseKey "A").modifiers.shift = true ∧
    keysMatch (parseKey "A") (parseKey "<S-a>") = true := by
  refine ⟨by decide, by decide, by decide, by decide⟩

/-- `find` hits `null` at the first missing edge. -/
theorem findNode_missing_edge (p : List String) (root : TrieNode) (k : String)
    (rest : List String) (n : TrieNode) (hwalk : findNode root p = some n)
    (hmiss : (n.getChild k).isNone = true) :
    findNode root (p ++ k :: rest) = none := by
  induction p generalizing root with
  | nil =>
    simp only [findNode] at hwalk
    cases hwalk
    simp only [List.nil_append, findNode]
    rw [Option.isNone_iff_eq_none] at hmiss
    simp [hmiss]
  | cons q qs ih =>
    simp only [findNode] at hwalk
    cases hq : root.getChild q with
    | none => rw [hq] at hwalk; cases hwalk
    | some c =>
      rw [hq] at hwalk
      simp only [List.cons_append, findNode, hq]
      exact ih c hwalk

/-- C8: every sequence inserted (via `set`, hence via `Trie.insert`) is found
again by `find` at a completable node carrying the inserted terminal marking
and options; a sequence with a missing edge yields `null`; and `find` hands
the trie back unchanged. -/
theorem trie_insert_find_spec :
    (∀ (t : Trie) (ks : List String) (options : InsertOptions),
      ∃ m, (t.insert ks options).find ks = some m ∧ m.canComplete = true ∧
        (∀ r, options.repeatOpt = some r → m.metadata.repeatOpt = some r)) ∧
    (∀ (s : KeyProcessor) (sequence : String),
      ∃ m, (s.set sequence).currentRoot.find
          ((parseKeySequence sequence).map (fun k0 => k0.string)) = some m ∧
        m.canComplete = true) ∧
    (∀ (t : Trie) (p : List String) (k : String) (rest : List String) (n : TrieNode),
      t.find p = some n → (n.getChild k).isNone = true →
        t.find (p ++ k :: rest) = none) ∧
    (∀ (t : Trie) (ks : List String), (t.findT ks).2 = t) := by
  refine ⟨?_, ?_, ?_, ?_⟩
  · intro t ks options
    obtain ⟨m, hf, hc, hm⟩ := insertNode_find ks t.root options
    exact ⟨m, hf, by simpa [TrieNode.canComplete] using hc, hm⟩
  · intro s sequence
    obtain ⟨m, hf, hc, _⟩ :=
      insertNode_find ((parseKeySequence sequence).map (fun k0 => k0.string))
        s.currentRoot.root { repeatOpt := none }
    exact ⟨m, hf, by simpa [TrieNode.canComplete] using hc⟩
  · intro t p k rest n hwalk hmiss
    exact findNode_missing_edge p t.root k rest n hwalk hmiss
  · intro t ks
    rfl

/-- Concrete trie for witnesses: the sequence `["a","b"]` inserted into an
empty trie. -/
def exTrieAB : Trie := emptyTrie.insert ["a", "b"] { repeatOpt := none }

/-- The node `exTrieAB` stores at `["a"]`. -/
def exNodeA : TrieNode :=
  TrieNode.mk (some "a") false false { repeatOpt := none }
    [("b", TrieNode.mk (some "b") true false { repeatOpt := none } [])]

/-- Witness for C8 at concrete inputs. -/
theorem trie_insert_find_spec_witness :
    (∃ m, (emptyTrie.insert ["a", "b"] { repeatOpt := none }).find ["a", "b"] = some m ∧
      m.canComplete = true ∧
      (∀ r, (({ repeatOpt := none } : InsertOptions)).repeatOpt = some r →
        m.metadata.repeatOpt = some r)) ∧
    exTrieAB.find (["a"] ++ "x" :: []) = none :=
  ⟨trie_insert_find_spec.1 emptyTrie ["a", "b"] { repeatOpt := none },
   trie_insert_find_spec.2.2.1 exTrieAB ["a"] "x" [] exNodeA rfl (by decide)⟩

/-! ## Frame lemmas for the processor's primitive operations -/

@[simp]
theorem clearTimer_currentPath (s : KeyProcessor) : (s.clearTimer).currentPath = s.currentPath := by
  cases h : s.timeoutId <;> simp [KeyProcessor.clearTimer, h]

@[simp]
theorem clearTimer_matchedPath (s : KeyProcessor) : (s.clearTimer).matchedPath = s.matchedPath := by
  cases h : s.timeoutId <;> simp [KeyProcessor.clearTimer, h]

@[simp]
theorem clearTimer_pending (s : KeyProcessor) :
    (s.clearTimer).pendingAmbiguousSequence = s.pendingAmbiguousSequence := by
  cases h : s.timeoutId <;> simp [KeyProcessor.clearTimer, h]

@[simp]
theorem clearTimer_timeoutId (s : KeyProcessor) : (s.clearTimer).timeoutId = none := by
  cases h : s.timeoutId <;> simp [KeyProcessor.clearTimer, h]

@[simp]
theorem clearTimer_timeoutType (s : KeyProcessor) : (s.clearTimer).timeoutType = none := by
  cases h : s.timeoutId <;> simp [KeyProcessor.clearTimer, h]

@[simp]
theorem clearTimer_heldKeys (s : KeyProcessor) : (s.clearTimer).heldKeys = s.heldKeys := by
  cases h : s.timeoutId <;> simp [KeyProcessor.clearTimer, h]

@[simp]
theorem clearTimer_liveIntervals (s : KeyProcessor) :
    (s.clearTimer).liveIntervals = s.liveIntervals := by
  cases h : s.timeoutId <;> simp [KeyProcessor.clearTimer, h]

@[simp]
theorem clearTimer_nextTimerId (s : KeyProcessor) : (s.clearTimer).nextTimerId = s.nextTimerId := by
  cases h : s.timeoutId <;> simp [KeyProcessor.clearTimer, h]

@[simp]
theorem clearTimer_currentMode (s : KeyProcessor) : (s.clearTimer).currentMode = s.currentMode := by
  cases h : s.timeoutId <;> simp [KeyProcessor.clearTimer, h]

@[simp]
theorem clearTimer_currentRoot (s : KeyProcessor) : (s.clearTimer).currentRoot = s.currentRoot := by
  cases h : s.timeoutId <;> simp [KeyProcessor.clearTimer, h]

@[simp]
theorem resetToRoot_st_currentPath (s : KeyProcessor) : (s.resetToRoot).st.currentPath = [] := by
  simp [KeyProcessor.resetToRoot]

@[simp]
theorem resetToRoot_st_matchedPath (s : KeyProcessor) : (s.resetToRoot).st.matchedPath = [] := by
  simp [KeyProcessor.resetToRoot]

@[simp]
theorem resetToRoot_st_pending (s : KeyProcessor) :
    (s.resetToRoot).st.pendingAmbiguousSequence = s.pendingAmbiguousSequence := by
  simp [KeyProcessor.resetToRoot]

@[simp]
theorem resetToRoot_st_timeoutId (s : KeyProcessor) : (s.resetToRoot).st.timeoutId = none := by
  simp [KeyProcessor.resetToRoot]

@[simp]
theorem resetToRoot_st_heldKeys (s : KeyProcessor) : (s.resetToRoot).st.heldKeys = s.heldKeys := by
  simp [KeyProcessor.resetToRoot]

@[simp]
theorem resetToRoot_st_liveIntervals (s : KeyProcessor) :
    (s.resetToRoot).st.liveIntervals = s.liveIntervals := by
  simp [KeyProcessor.resetToRoot]

@[simp]
theorem resetToRoot_st_nextTimerId (s : KeyProcessor) :
    (s.resetToRoot).st.nextTimerId = s.nextTimerId := by
  simp [KeyProcessor.resetToRoot]

@[simp]
theorem resetToRoot_ev (s : KeyProcessor) : (s.resetToRoot).ev = [Event.onSequenceReset] := rfl

@[simp]
theorem setTimer_currentPath (s : KeyProcessor) (ty : TimerType) :
    (s.setTimer ty).currentPath = s.currentPath := by
  simp [KeyProcessor.setTimer]

@[simp]
theorem setTimer_matchedPath (s : KeyProcessor) (ty : TimerType) :
    (s.setTimer ty).matchedPath = s.matchedPath := by
  simp [KeyProcessor.setTimer]

@[simp]
theorem setTimer_pending (s : KeyProcessor) (ty : TimerType) :
    (s.setTimer ty).pendingAmbiguousSequence = s.pendingAmbiguousSequence := by
  simp [KeyProcessor.setTimer]

@[simp]
theorem setTimer_timeoutId (s : KeyProcessor) (ty : TimerType) :
    (s.setTimer ty).timeoutId = some s.nextTimerId := by
  simp [KeyProcessor.setTimer]

@[simp]
theorem setTimer_heldKeys (s : KeyProcessor) (ty : TimerType) :
    (s.setTimer ty).heldKeys = s.heldKeys := by
  simp [KeyProcessor.setTimer]

@[simp]
theorem setTimer_liveIntervals (s : KeyProcessor) (ty : TimerType) :
    (s.setTimer ty).liveIntervals = s.liveIntervals := by
  simp [KeyProcessor.setTimer]

@[simp]
theorem stopRepeating_st_currentPath (s : KeyProcessor) (ks : String) :
    (s.stopRepeating ks).st.currentPath = s.currentPath := by
  cases h : s.heldKeys.lookup ks <;> simp [KeyProcessor.stopRepeating, h]

@[simp]
theorem stopRepeating_st_matchedPath (s : KeyProcessor) (ks : String) :
    (s.stopRepeating ks).st.matchedPath = s.matchedPath := by
  cases h : s.heldKeys.lookup ks <;> simp [KeyProcessor.stopRepeating, h]

@[simp]
theorem stopRepeating_st_pending (s : KeyProcessor) (ks : String) :
    (s.stopRepeating ks).st.pendingAmbiguousSequence = s.pendingAmbiguousSequence := by
  cases h : s.heldKeys.lookup ks <;> simp [KeyProcessor.stopRepeating, h]

@[simp]
theorem stopRepeating_st_timeoutId (s : KeyProcessor) (ks : String) :
    (s.stopRepeating ks).st.timeoutId = s.timeoutId := by
  cases h : s.heldKeys.lookup ks <;> simp [KeyProcessor.stopRepeating, h]

@[simp]
theorem stopRepeating_st_timeoutType (s : KeyProcessor) (ks : String) :
    (s.stopRepeating ks).st.timeoutType = s.timeoutType := by
  cases h : s.heldKeys.lookup ks <;> simp [KeyProcessor.stopRepeating, h]

@[simp]
theorem stopRepeating_st_liveTimeouts (s : KeyProcessor) (ks : String) :
    (s.stopRepeating ks).st.liveTimeouts = s.liveTimeouts := by
  cases h : s.heldKeys.lookup ks <;> simp [KeyProcessor.stopRepeating, h]

@[simp]
theorem stopRepeating_st_nextTimerId (s : KeyProcessor) (ks : String) :
    (s.stopRepeating ks).st.nextTimerId = s.nextTimerId := by
  cases h : s.heldKeys.lookup ks <;> simp [KeyProcessor.stopRepeating, h]

@[simp]
theorem stopRepeating_st_currentMode (s : KeyProcessor) (ks : String) :
    (s.stopRepeating ks).st.currentMode = s.currentMode := by
  cases h : s.heldKeys.lookup ks <;> simp [KeyProcessor.stopRepeating, h]

@[simp]
theorem stopRepeating_st_currentRoot (s : KeyProcessor) (ks : String) :
    (s.stopRepeating ks).st.currentRoot = s.currentRoot := by
  cases h : s.heldKeys.lookup ks <;> simp [KeyProcessor.stopRepeating, h]

@[simp]
theorem startRepeating_st_currentPath (s : KeyProcessor) (ks : String) (info : SequenceInfo)
    (ci : Option Nat) : (s.startRepeating ks info ci).st.currentPath = s.currentPath := by
  simp [KeyProcessor.startRepeating]

@[simp]
theorem startRepeating_st_matchedPath (s : KeyProcessor) (ks : String) (info : SequenceInfo)
    (ci : Option Nat) : (s.startRepeating ks info ci).st.matchedPath = s.matchedPath := by
  simp [KeyProcessor.startRepeating]

@[simp]
theorem startRepeating_st_pending (s : KeyProcessor) (ks : String) (info : SequenceInfo)
    (ci : Option Nat) :
    (s.startRepeating ks info ci).st.pendingAmbiguousSequence = s.pendingAmbiguousSequence := by
  simp [KeyProcessor.startRepeating]

@[simp]
theorem startRepeating_st_timeoutId (s : KeyProcessor) (ks : String) (info : SequenceInfo)
    (ci : Option Nat) : (s.startRepeating ks info ci).st.timeoutId = s.timeoutId := by
  simp [KeyProcessor.startRepeating]

@[simp]
theorem startRepeating_st_liveTimeouts (s : KeyProcessor) (ks : String) (info : SequenceInfo)
    (ci : Option Nat) : (s.startRepeating ks info ci).st.liveTimeouts = s.liveTimeouts := by
  simp [KeyProcessor.startRepeating]

@[simp]
theorem startRepeating_st_currentMode (s : KeyProcessor) (ks : String) (info : SequenceInfo)
    (ci : Option Nat) : (s.startRepeating ks info ci).st.currentMode = s.currentMode := by
  simp [KeyProcessor.startRepeating]

@[simp]
theorem stopAllRepeating_st_currentPath (s : KeyProcessor) :
    (s.stopAllRepeating).st.currentPath = s.currentPath := by
  simp [KeyProcessor.stopAllRepeating]

@[simp]
theorem stopAllRepeating_st_matchedPath (s : KeyProcessor) :
    (s.stopAllRepeating).st.matchedPath = s.matchedPath := by
  simp [KeyProcessor.stopAllRepeating]

@[simp]
theorem stopAllRepeating_st_pending (s : KeyProcessor) :
    (s.stopAllRepeating).st.pendingAmbiguousSequence = s.pendingAmbiguousSequence := by
  simp [KeyProcessor.stopAllRepeating]

@[simp]
theorem stopAllRepeating_st_timeoutId (s : KeyProcessor) :
    (s.stopAllRepeating).st.timeoutId = s.timeoutId := by
  simp [KeyProcessor.stopAllRepeating]

@[simp]
theorem stopAllRepeating_st_liveTimeouts (s : KeyProcessor) :
    (s.stopAllRepeating).st.liveTimeouts = s.liveTimeouts := by
  simp [KeyProcessor.stopAllRepeating]

/-! ## Claim theorems: processor behaviour -/

/-- Classifier for ambiguous-timeout dispatch events. -/
def isAmbiguousTimeoutEvent : Event → Bool
  | Event.onAmbiguousTimeout _ => true
  | _ => false

/-- Classifier for sequence-completion dispatch events. -/
def isSequenceDispatchEvent : Event → Bool
  | Event.onSequenceComplete _ => true
  | _ => false

/-- Classifier for node-match events. -/
def isNodeMatchedEvent : Event → Bool
  | Event.onNodeMatched _ => true
  | _ => false

theorem countP_completionHooks_zero (s : KeyProcessor) (p : Event → Bool)
    (h : ∀ q, p (Event.nodeOnSequenceComplete q) = false) :
    s.callCompletionHooks.countP p = 0 := by
  apply List.countP_eq_zero.mpr
  intro e he
  simp only [KeyProcessor.callCompletionHooks, List.mem_append, List.mem_map,
    List.mem_singleton] at he
  rcases he with ⟨q, _, rfl⟩ | rfl
  · simp [h]
  · simp [h]

theorem liveTimeouts_clearTimer_nil (s : KeyProcessor) (h : s.liveTimeouts = []) :
    (s.clearTimer).liveTimeouts = [] := by
  cases hid : s.timeoutId <;> simp [KeyProcessor.clearTimer, hid, h]

theorem fireTimeout_st_liveTimeouts_nil (s : KeyProcessor) (i : Nat)
    (hfil : s.liveTimeouts.filter (fun u => u.id ≠ i) = []) :
    (s.fireTimeout i).st.liveTimeouts = [] := by
  cases hfind : s.liveTimeouts.find? (fun t => t.id = i) with
  | none =>
    have hnil : s.liveTimeouts = [] := by
      rw [List.eq_nil_iff_forall_not_mem]
      intro x hx
      have hne := List.find?_eq_none.mp hfind x hx
      have hmem : x ∈ s.liveTimeouts.filter (fun u => u.id ≠ i) :=
        List.mem_filter.mpr ⟨hx, by simpa using hne⟩
      rw [hfil] at hmem
      exact absurd hmem (List.not_mem_nil x)
    simp [KeyProcessor.fireTimeout, hfind, hnil]
  | some t =>
    by_cases hc : (t.capturedType = TimerType.AMBIGUOUS &&
        ({ s with liveTimeouts := s.liveTimeouts.filter (fun u => u.id ≠ i) } :
          KeyProcessor).pendingAmbiguousSequence.isSome) = true
    · simp only [KeyProcessor.fireTimeout, hfind, hc, if_true, KeyProcessor.resetToRoot]
      apply liveTimeouts_clearTimer_nil
      simpa using hfil
    · simp only [KeyProcessor.fireTimeout, hfind, hc, if_false, KeyProcessor.resetToRoot]
      apply liveTimeouts_clearTimer_nil
      simpa using hfil

/-- C1: in the `AMBIGUOUS` state, an expiring ambiguity timer dispatches the
pending match exactly once and resets to ROOT; a configured force-execute
key arriving instead dispatches immediately, runs the completion hooks,
resets to ROOT and consumes the key. -/
theorem ambiguous_resolution_spec (s : KeyProcessor) (i d : Nat) (seq : List String)
    (k : NKey) (rs : List OnKeyResult) :
    (s.currentNodeD.isAmbiguous = true →
     s.liveTimeouts = [⟨i, TimerType.AMBIGUOUS, d⟩] →
     s.pendingAmbiguousSequence = some seq →
     (s.fireTimeout i).ev = Event.onAmbiguousTimeout ⟨seq, s.currentMode⟩ ::
       (s.callCompletionHooks ++ [Event.onSequenceReset]) ∧
     (s.fireTimeout i).ev.countP isAmbiguousTimeoutEvent = 1 ∧
     (s.fireTimeout i).st.currentPath = [] ∧
     (s.fireTimeout i).st.matchedPath = [] ∧
     (s.fireTimeout i).st.liveTimeouts = [] ∧
     (s.fireTimeout i).st.timeoutId = none) ∧
    (s.currentNodeD.isAmbiguous = true →
     s.pendingAmbiguousSequence = some seq →
     s.isForceExecuteKey k = true →
     firstStance rs = none →
     (s.processKeyInternal k rs).ret = false ∧
     (s.processKeyInternal k rs).ev = Event.onKeyTriggered ::
       Event.onSequenceComplete ⟨seq, s.currentMode⟩ ::
       (s.callCompletionHooks ++ [Event.onActionExecuted, Event.onSequenceReset]) ∧
     (s.processKeyInternal k rs).ev.countP isSequenceDispatchEvent = 1 ∧
     (s.processKeyInternal k rs).st.currentPath = [] ∧
     (s.processKeyInternal k rs).st.matchedPath = [] ∧
     (s.processKeyInternal k rs).st.timeoutId = none) := by
  constructor
  · intro _hamb hlive hpend
    have hfind : s.liveTimeouts.find? (fun t => t.id = i) =
        some ⟨i, TimerType.AMBIGUOUS, d⟩ := by
      rw [hlive]; simp
    have hev : (s.fireTimeout i).ev = Event.onAmbiguousTimeout ⟨seq, s.currentMode⟩ ::
        (s.callCompletionHooks ++ [Event.onSequenceReset]) := by
      simp [KeyProcessor.fireTimeout, hfind, hpend, KeyProcessor.callCompletionHooks]
    refine ⟨hev, ?_, ?_, ?_, ?_, ?_⟩
    · rw [hev]
      simp only [List.countP_cons, isAmbiguousTimeoutEvent]
      have hz : (s.callCompletionHooks ++ [Event.onSequenceReset]).countP
          isAmbiguousTimeoutEvent = 0 := by
        apply List.countP_eq_zero.mpr
        intro e he
        simp only [KeyProcessor.callCompletionHooks, List.mem_append, List.mem_map,
          List.mem_singleton] at he
        rcases he with (⟨q, _, rfl⟩ | rfl) | rfl <;> simp [isAmbiguousTimeoutEvent]
      simpa [isAmbiguousTimeoutEvent] using hz
    · simp [KeyProcessor.fireTimeout, hfind, hpend]
    · simp [KeyProcessor.fireTimeout, hfind, hpend]
    · apply fireTimeout_st_liveTimeouts_nil
      rw [hlive]
      simp
    · simp [KeyProcessor.fireTimeout, hfind, hpend]
  · intro hamb hpend hforce hstance
    have key : s.processKeyInternal k rs =
        { st := ({ s with currentPath := [], matchedPath := [] }).clearTimer,
          ev := Event.onKeyTriggered :: Event.onSequenceComplete ⟨seq, s.currentMode⟩ ::
            (s.callCompletionHooks ++ [Event.onActionExecuted, Event.onSequenceReset]),
          ret := false } := by
      simp [KeyProcessor.processKeyInternal, hstance, hpend, hamb, hforce,
        KeyProcessor.resetToRoot]
    rw [key]
    refine ⟨rfl, rfl, ?_, by simp, by simp, by simp⟩
    simp only [List.countP_cons, isSequenceDispatchEvent]
    have hz : (s.callCompletionHooks ++ [Event.onActionExecuted,
        Event.onSequenceReset]).countP isSequenceDispatchEvent = 0 := by
      apply List.countP_eq_zero.mpr
      intro e he
      cases e <;> simp [isSequenceDispatchEvent]
      simp [KeyProcessor.callCompletionHooks] at he
    simpa [isSequenceDispatchEvent] using hz

/-- C2: a key that is no child of the current node while `AMBIGUOUS`
dispatches the pending match, runs completion hooks, resets to ROOT and
reports the key as not consumed (forward), without re-running it against the
reset trie in the same call. -/
theorem ambiguous_nochild_forward_spec (s : KeyProcessor) (k : NKey) (seq : List String)
    (hmiss : (s.currentNodeD.getChild k.string).isNone = true)
    (hamb : s.currentNodeD.isAmbiguous = true)
    (hpend : s.pendingAmbiguousSequence = some seq) :
    (s.processKeyCore k).ret = true ∧
    (s.processKeyCore k).ev = Event.onSequenceComplete ⟨seq, s.currentMode⟩ ::
      (s.callCompletionHooks ++ [Event.onActionExecuted, Event.onSequenceReset]) ∧
    (s.processKeyCore k).ev.countP isSequenceDispatchEvent = 1 ∧
    (s.processKeyCore k).ev.countP isNodeMatchedEvent = 0 ∧
    (s.processKeyCore k).st.currentPath = [] ∧
    (s.processKeyCore k).st.matchedPath = [] ∧
    (s.processKeyCore k).st.timeoutId = none := by
  rw [Option.isNone_iff_eq_none] at hmiss
  have key : s.processKeyCore k =
      { st := ({ s with currentPath := [], matchedPath := [] }).clearTimer,
        ev := Event.onSequenceComplete ⟨seq, s.currentMode⟩ ::
          (s.callCompletionHooks ++ [Event.onActionExecuted, Event.onSequenceReset]),
        ret := true } := by
    simp [KeyProcessor.processKeyCore, hmiss, hamb, hpend, KeyProcessor.resetToRoot]
  rw [key]
  refine ⟨rfl, rfl, ?_, ?_, by simp, by simp, by simp⟩
  · simp only [List.countP_cons, isSequenceDispatchEvent]
    have hz : (s.callCompletionHooks ++ [Event.onActionExecuted,
        Event.onSequenceReset]).countP isSequenceDispatchEvent = 0 := by
      apply List.countP_eq_zero.mpr
      intro e he
      cases e <;> simp [isSequenceDispatchEvent]
      simp [KeyProcessor.callCompletionHooks] at he
    simpa [isSequenceDispatchEvent] using hz
  · apply List.countP_eq_zero.mpr
    intro e he
    cases e <;> simp [isNodeMatchedEvent]
    simp [KeyProcessor.callCompletionHooks] at he

/-- C9: with at least one `onKey` listener registered, `processKeyParsed`
returns exactly "some listener returned `true`" and leaves the whole state
untouched — no trie matching, no timer change — even when every listener is
indefinite; only the event path (`processKeyInternal`) falls through to the
trie walk in that case. -/
theorem processKeyParsed_onkey_spec (s : KeyProcessor) (k : NKey)
    (rs : List OnKeyResult) (hne : rs ≠ []) :
    s.processKeyParsed k rs =
      { st := s, ev := [Event.onKeyTriggered],
        ret := rs.contains OnKeyResult.definiteTrue } ∧
    (firstStance rs = none →
     (s.currentNodeD.isAmbiguous && s.pendingAmbiguousSequence.isSome &&
       s.isForceExecuteKey k) = false →
     s.processKeyInternal k rs =
       { st := (s.processKeyCore k).st,
         ev := Event.onKeyTriggered :: (s.processKeyCore k).ev,
         ret := (s.processKeyCore k).ret }) := by
  constructor
  · have hpos : 0 < rs.length := List.length_pos.mpr hne
    simp [KeyProcessor.processKeyParsed, hpos]
  · intro hstance hguard
    simp [KeyProcessor.processKeyInternal, hstance, hguard]

/-- Concrete processor states for the witnesses. -/
def exOpts : KeyProcessorOptions :=
  { keyTimeout := none, ambiguityTimeout := none, forceExecuteKeys := none,
    repeatInterval := none, defaultMode := none }

/-- Bindings `"a"` and `"ab"` installed. -/
def exPAB : KeyProcessor := ((KeyProcessor.new exOpts).set "a").set "ab"

/-- `exPAB` after the key `a`: the `AMBIGUOUS` state of the spec's example
scenario (pending `["a"]`, ambiguity timer running). -/
def exAmbState : KeyProcessor := (exPAB.processKeyParsed (parseKey "a") []).st

/-- Witness for C1 at the concrete ambiguous state. -/
theorem ambiguous_resolution_spec_witness :
    exAmbState.currentNodeD.isAmbiguous = true ∧
    exAmbState.pendingAmbiguousSequence = some ["a"] ∧
    ((exAmbState.fireTimeout 0).ev = Event.onAmbiguousTimeout ⟨["a"], "n"⟩ ::
        (exAmbState.callCompletionHooks ++ [Event.onSequenceReset]) ∧
      (exAmbState.fireTimeout 0).ev.countP isAmbiguousTimeoutEvent = 1 ∧
      (exAmbState.fireTimeout 0).st.currentPath = [] ∧
      (exAmbState.fireTimeout 0).st.matchedPath = [] ∧
      (exAmbState.fireTimeout 0).st.liveTimeouts = [] ∧
      (exAmbState.fireTimeout 0).st.timeoutId = none) ∧
    ((exAmbState.processKeyInternal (parseKey "<Enter>") []).ret = false ∧
      (exAmbState.processKeyInternal (parseKey "<Enter>") []).ev =
        Event.onKeyTriggered :: Event.onSequenceComplete ⟨["a"], "n"⟩ ::
          (exAmbState.callCompletionHooks ++
            [Event.onActionExecuted, Event.onSequenceReset]) ∧
      (exAmbState.processKeyInternal (parseKey "<Enter>") []).ev.countP
        isSequenceDispatchEvent = 1 ∧
      (exAmbState.processKeyInternal (parseKey "<Enter>") []).st.currentPath = [] ∧
      (exAmbState.processKeyInternal (parseKey "<Enter>") []).st.matchedPath = [] ∧
      (exAmbState.processKeyInternal (parseKey "<Enter>") []).st.timeoutId = none) := by
  refine ⟨by decide, by decide, ?_, ?_⟩
  · have h := (ambiguous_resolution_spec exAmbState 0 300 ["a"]
      (parseKey "<Enter>") []).1 (by decide) (by decide) (by decide)
    simpa using h
  · have h := (ambiguous_resolution_spec exAmbState 0 300 ["a"]
      (parseKey "<Enter>") []).2 (by decide) (by decide) (by decide) (by decide)
    simpa using h

/-- Witness for C2 at the concrete ambiguous state fed the unrelated key
`x`. -/
theorem ambiguous_nochild_forward_spec_witness :
    (exAmbState.currentNodeD.getChild (parseKey "x").string).isNone = true ∧
    ((exAmbState.processKeyCore (parseKey "x")).ret = true ∧
      (exAmbState.processKeyCore (parseKey "x")).ev =
        Event.onSequenceComplete ⟨["a"], "n"⟩ ::
          (exAmbState.callCompletionHooks ++
            [Event.onActionExecuted, Event.onSequenceReset]) ∧
      (exAmbState.processKeyCore (parseKey "x")).ev.countP isSequenceDispatchEvent = 1 ∧
      (exAmbState.processKeyCore (parseKey "x")).ev.countP isNodeMatchedEvent = 0 ∧
      (exAmbState.processKeyCore (parseKey "x")).st.currentPath = [] ∧
      (exAmbState.processKeyCore (parseKey "x")).st.matchedPath = [] ∧
      (exAmbState.processKeyCore (parseKey "x")).st.timeoutId = none) := by
  refine ⟨by decide, ?_⟩
  have h := ambiguous_nochild_forward_spec exAmbState (parseKey "x") ["a"]
    (by decide) (by decide) (by decide)
  simpa using h

/-- Witness for C9 at a concrete state with one indefinite listener. -/
theorem processKeyParsed_onkey_spec_witness :
    ([OnKeyResult.indefinite] ≠ ([] : List OnKeyResult)) ∧
    exPAB.processKeyParsed (parseKey "a") [OnKeyResult.indefinite] =
      { st := exPAB, ev := [Event.onKeyTriggered], ret := false } ∧
    (exPAB.currentNodeD.isAmbiguous && exPAB.pendingAmbiguousSequence.isSome &&
      exPAB.isForceExecuteKey (parseKey "a")) = false ∧
    exPAB.processKeyInternal (parseKey "a") [OnKeyResult.indefinite] =
      { st := (exPAB.processKeyCore (parseKey "a")).st,
        ev := Event.onKeyTriggered :: (exPAB.processKeyCore (parseKey "a")).ev,
        ret := (exPAB.processKeyCore (parseKey "a")).ret } := by
  have h := processKeyParsed_onkey_spec exPAB (parseKey "a")
    [OnKeyResult.indefinite] (by decide)
  refine ⟨by decide, ?_, by decide, h.2 (by decide) (by decide)⟩
  have h1 := h.1
  simpa using h1

/-- The state right after a child match pushes the previous node and
advances `currentNode` (the first half of the child-found branch of
`processKeyCore`). -/
def pushedState (s : KeyProcessor) (ks : String) : KeyProcessor :=
  { s with currentPath := s.currentPath ++ [ks],
           matchedPath := s.matchedPath ++ [s.currentPath] }

/-- C3 counterexample scaffolding: bindings `"a"` and `"abc"`, key `a`
processed, so the processor sits one step past an ambiguous node with
`pendingAmbiguousSequence = ["a"]`. -/
def exPABC : KeyProcessor := ((KeyProcessor.new exOpts).set "a").set "abc"

def exAmbDeep : KeyProcessor := (exPABC.processKeyParsed (parseKey "a") []).st

/-- C3 as stated is false on the code: a child-found step does *not* clear
the pending-ambiguous marker.  Feeding `b` to the ambiguous state (child
`b` exists, continuing towards `"abc"`) leaves the stale marker `["a"]` in
place instead of clearing it. -/
theorem child_found_clears_pending_counterexample :
    (exAmbDeep.currentNodeD.getChild (parseKey "b").string).isSome = true ∧
    exAmbDeep.pendingAmbiguousSequence = some ["a"] ∧
    (exAmbDeep.processKeyCore (parseKey "b")).st.pendingAmbiguousSequence = some ["a"] ∧
    ¬((exAmbDeep.processKeyCore (parseKey "b")).st.pendingAmbiguousSequence = none) := by
  refine ⟨by decide, by decide, by decide, by decide⟩

/-- C3 (amended): on a child match the previous node is pushed, `currentNode`
advances to the child, and the matched hooks fire (visible as the first
three events, carrying the previous and the new path); the pending-ambiguous
marker is **not** cleared — it is left unchanged unless the new node is
ambiguous, in which case it is overwritten with the new sequence. -/
theorem child_found_spec (s : KeyProcessor) (k : NKey) (child : TrieNode)
    (hc : s.currentNodeD.getChild k.string = some child) :
    (s.processKeyCore k).ev.take 3 = [Event.nodeOnChildMatched s.currentPath,
      Event.onNodeMatched (s.currentPath ++ [k.string]),
      Event.nodeOnMatched (s.currentPath ++ [k.string])] ∧
    (child.isAmbiguous = false →
      (s.processKeyCore k).st.pendingAmbiguousSequence = s.pendingAmbiguousSequence) ∧
    (child.isAmbiguous = true →
      (s.processKeyCore k).st.pendingAmbiguousSequence =
        some ((pushedState s k.string).getMatchedSequence)) ∧
    (child.isAmbiguous = true ∨ child.canComplete = false →
      (s.processKeyCore k).st.currentPath = s.currentPath ++ [k.string] ∧
      (s.processKeyCore k).st.matchedPath = s.matchedPath ++ [s.currentPath]) := by
  by_cases hamb : child.isAmbiguous = true
  · refine ⟨?_, ?_, ?_, ?_⟩
    · simp [KeyProcessor.processKeyCore, hc, hamb]
    · intro hfalse
      rw [hfalse] at hamb
      cases hamb
    · intro _
      simp [KeyProcessor.processKeyCore, hc, hamb, pushedState]
    · intro _
      constructor <;> simp [KeyProcessor.processKeyCore, hc, hamb]
  · have hambf : child.isAmbiguous = false := by
      cases hval : child.isAmbiguous
      · rfl
      · exact absurd hval hamb
    by_cases hcc : child.canComplete = true
    · refine ⟨?_, ?_, ?_, ?_⟩
      · cases hrr : repeatRequested child.metadata.repeatOpt <;>
          cases hl : s.heldKeys.lookup k.string <;>
          simp [KeyProcessor.processKeyCore, hc, hambf, hcc, hrr,
            KeyProcessor.startRepeating, KeyProcessor.stopRepeating, hl,
            List.take_succ_cons]
      · intro _
        cases hrr : repeatRequested child.metadata.repeatOpt <;>
          cases hl : s.heldKeys.lookup k.string <;>
          simp [KeyProcessor.processKeyCore, hc, hambf, hcc, hrr,
            KeyProcessor.startRepeating, KeyProcessor.stopRepeating, hl]
      · intro htrue
        rw [htrue] at hambf
        cases hambf
      · intro hd
        rcases hd with htrue | hfalse
        · rw [htrue] at hambf
          cases hambf
        · rw [hfalse] at hcc
          cases hcc
    · have hccf : child.canComplete = false := by
        cases hval : child.canComplete
        · rfl
        · exact absurd hval hcc
      refine ⟨?_, ?_, ?_, ?_⟩
      · simp [KeyProcessor.processKeyCore, hc, hambf, hccf]
      · intro _
        simp [KeyProcessor.processKeyCore, hc, hambf, hccf]
      · intro htrue
        rw [htrue] at hambf
        cases hambf
      · intro _
        constructor <;> simp [KeyProcessor.processKeyCore, hc, hambf, hccf]

/-- The node at `["a","b"]` in `exAmbDeep`'s trie. -/
def exNodeB : TrieNode :=
  TrieNode.mk (some "b") false false { repeatOpt := none }
    [("c", TrieNode.mk (some "c") true false { repeatOpt := none } [])]

/-- Witness for C3's amended statement: the `a`-then-`b` continuation of
`exAmbDeep` pushes, advances, fires the matched hooks, and leaves the
pending marker untouched. -/
theorem child_found_spec_witness :
    exAmbDeep.currentNodeD.getChild (parseKey "b").string = some exNodeB ∧
    (exAmbDeep.processKeyCore (parseKey "b")).ev.take 3 =
      [Event.nodeOnChildMatched exAmbDeep.currentPath,
       Event.onNodeMatched (exAmbDeep.currentPath ++ [(parseKey "b").string]),
       Event.nodeOnMatched (exAmbDeep.currentPath ++ [(parseKey "b").string])] ∧
    (exAmbDeep.processKeyCore (parseKey "b")).st.pendingAmbiguousSequence =
      exAmbDeep.pendingAmbiguousSequence ∧
    (exAmbDeep.processKeyCore (parseKey "b")).st.currentPath =
      exAmbDeep.currentPath ++ [(parseKey "b").string] ∧
    (exAmbDeep.processKeyCore (parseKey "b")).st.matchedPath =
      exAmbDeep.matchedPath ++ [exAmbDeep.currentPath] := by
  have h := child_found_spec exAmbDeep (parseKey "b") exNodeB rfl
  exact ⟨rfl, h.1, h.2.1 (by decide), (h.2.2.2 (Or.inr (by decide))).1,
    (h.2.2.2 (Or.inr (by decide))).2⟩

theorem lookup_filter_self_none {β : Type} (l : List (String × β)) (ks : String) :
    (l.filter (fun p => p.1 ≠ ks)).lookup ks = none := by
  simp
  intro a b _ hne heq
  exact absurd heq.symm hne

theorem find?_filter_id_none (l : List ScheduledInterval) (i : Nat) :
    (l.filter (fun iv => iv.id ≠ i)).find? (fun iv => iv.id = i) = none := by
  rw [List.find?_eq_none]
  intro x hx
  have h2 := (List.mem_filter.mp hx).2
  simp at h2 ⊢
  exact h2

/-- C5: a `repeat` terminal match dispatches immediately (`onRepeatStart`
with the matched sequence) and schedules an interval at the per-binding
override or the processor default; every interval tick dispatches
`onRepeat`; a key-up for the held key ends the repeat (`onRepeatEnd`), after
which no further tick can fire for that key; and starting a repeat for an
already-held key cancels the old interval before starting the new one, so
two intervals are never live for the same key. -/
theorem repeat_binding_spec (s s2 s3 : KeyProcessor) (k : NKey) (child : TrieNode)
    (ro : RepeatOption) (i ivl : Nat) (info info2 : SequenceInfo)
    (event : KeyboardEvent) (h : HeldKey) (ks : String) (ci : Option Nat) :
    (s.currentNodeD.getChild k.string = some child →
     child.isAmbiguous = false →
     child.canComplete = true →
     child.metadata.repeatOpt = some ro →
     repeatRequested (some ro) = true →
     Event.onRepeatStart ⟨(pushedState s k.string).getMatchedSequence, s.currentMode⟩ ∈
       (s.processKeyCore k).ev ∧
     (s.processKeyCore k).st.heldKeys.lookup k.string =
       some ⟨s.nextTimerId, ⟨(pushedState s k.string).getMatchedSequence, s.currentMode⟩⟩ ∧
     (⟨s.nextTimerId, (repeatIntervalOf (some ro)).getD s.repeatInterval,
        ⟨(pushedState s k.string).getMatchedSequence, s.currentMode⟩⟩ : ScheduledInterval) ∈
       (s.processKeyCore k).st.liveIntervals) ∧
    (s2.liveIntervals.find? (fun iv => iv.id = i) = some ⟨i, ivl, info⟩ →
     (s2.fireInterval i).ev = [Event.onRepeat info] ∧ (s2.fireInterval i).st = s2) ∧
    (s3.isActive = true →
     modifierKeys.contains event.key = false →
     s3.heldKeys.lookup (eventToKey event).string = some h →
     (s3.handleKeyUp event).ev = [Event.onRepeatEnd h.sequenceInfo] ∧
     (s3.handleKeyUp event).st.heldKeys.lookup (eventToKey event).string = none ∧
     (s3.handleKeyUp event).st.liveIntervals.find?
       (fun iv => iv.id = h.intervalId) = none ∧
     ((s3.handleKeyUp event).st.fireInterval h.intervalId).ev = []) ∧
    (s3.heldKeys.lookup ks = some h →
     h.intervalId ≠ s3.nextTimerId →
     (∀ iv ∈ s3.liveIntervals, iv.id ≠ s3.nextTimerId) →
     (s3.startRepeating ks info2 ci).ev =
       [Event.onRepeatEnd h.sequenceInfo, Event.onRepeatStart info2] ∧
     (s3.startRepeating ks info2 ci).st.heldKeys.lookup ks =
       some ⟨s3.nextTimerId, info2⟩ ∧
     (s3.startRepeating ks info2 ci).st.liveIntervals.find?
       (fun iv => iv.id = h.intervalId) = none ∧
     ((s3.startRepeating ks info2 ci).st.liveIntervals.filter
       (fun iv => iv.id = s3.nextTimerId)).length = 1) := by
  refine ⟨?_, ?_, ?_, ?_⟩
  · intro hc hambf hcc hro hrr
    cases hl : s.heldKeys.lookup k.string <;>
      simp [KeyProcessor.processKeyCore, hc, hambf, hcc, hro, hrr,
        KeyProcessor.startRepeating, KeyProcessor.stopRepeating, hl,
        lookup_jsMapSet_self, pushedState]
  · intro hfind
    simp [KeyProcessor.fireInterval, hfind]
  · intro hact hmod hheld
    have hmodmem : ¬(event.key ∈ modifierKeys) := by simpa using hmod
    have key : s3.handleKeyUp event = s3.stopRepeating (eventToKey event).string := by
      simp [KeyProcessor.handleKeyUp, hact, hmodmem]
    rw [key]
    have hfn : ((s3.stopRepeating (eventToKey event).string).st.liveIntervals.find?
        (fun iv => iv.id = h.intervalId)) = none := by
      simp only [KeyProcessor.stopRepeating, hheld]
      exact find?_filter_id_none s3.liveIntervals h.intervalId
    have hlk : (s3.stopRepeating (eventToKey event).string).st.heldKeys.lookup
        (eventToKey event).string = none := by
      simp only [KeyProcessor.stopRepeating, hheld]
      exact lookup_filter_self_none s3.heldKeys (eventToKey event).string
    refine ⟨?_, hlk, hfn, ?_⟩
    · simp [KeyProcessor.stopRepeating, hheld]
    · simp [KeyProcessor.fireInterval, hfn]
  · intro hheld hne hfresh
    refine ⟨?_, ?_, ?_, ?_⟩
    · simp [KeyProcessor.startRepeating, KeyProcessor.stopRepeating, hheld]
    · simp [KeyProcessor.startRepeating, KeyProcessor.stopRepeating, hheld,
        lookup_jsMapSet_self]
    · simp only [KeyProcessor.startRepeating, KeyProcessor.stopRepeating, hheld]
      rw [List.find?_eq_none]
      intro x hx
      rcases List.mem_append.mp hx with hx1 | hx1
      · have hx2 := (List.mem_filter.mp hx1).2
        simpa using hx2
      · simp only [List.mem_singleton] at hx1
        subst hx1
        simp only [decide_eq_true_eq]
        intro hh
        exact hne hh.symm
    · simp only [KeyProcessor.startRepeating, KeyProcessor.stopRepeating, hheld]
      rw [List.filter_append]
      have h1 : (s3.liveIntervals.filter (fun iv => iv.id ≠ h.intervalId)).filter
          (fun iv => iv.id = s3.nextTimerId) = [] := by
        rw [List.filter_eq_nil_iff]
        intro x hx
        have hx1 := (List.mem_filter.mp hx).1
        have := hfresh x hx1
        simp [this]
      simp [h1]
      intro a ha heq
      exact absurd heq (hfresh a ha)

/-- A trie holding the binding `"x"` with `repeat:true` metadata, installed
the way the test suite does it (a direct `insert` with options). -/
def exRepTrie : Trie :=
  emptyTrie.insert ["x"] { repeatOpt := some (RepeatOption.boolVal true) }

/-- A processor whose current mode holds the repeat binding (the `insert`
mutates the trie shared between `currentRoot` and `modes`). -/
def exRep : KeyProcessor :=
  { KeyProcessor.new exOpts with currentRoot := exRepTrie, modes := [("n", exRepTrie)] }

/-- The repeat terminal node of `exRepTrie`. -/
def exNodeX : TrieNode :=
  TrieNode.mk (some "x") true false { repeatOpt := some (RepeatOption.boolVal true) } []

/-- `exRep` after the repeat binding `x` matched: key `"x"` held, one
interval scheduled. -/
def exRepHeld : KeyProcessor := (exRep.processKeyCore (parseKey "x")).st

def exKeyUpX : KeyboardEvent :=
  { key := "x", ctrlKey := false, altKey := false, shiftKey := false, metaKey := false }

/-- Witness for C5 at the concrete repeat binding. -/
theorem repeat_binding_spec_witness :
    exRep.currentNodeD.getChild (parseKey "x").string = some exNodeX ∧
    (Event.onRepeatStart ⟨["x"], "n"⟩ ∈ (exRep.processKeyCore (parseKey "x")).ev ∧
     (exRep.processKeyCore (parseKey "x")).st.heldKeys.lookup "x" =
       some ⟨0, ⟨["x"], "n"⟩⟩ ∧
     (⟨0, 50, ⟨["x"], "n"⟩⟩ : ScheduledInterval) ∈
       (exRep.processKeyCore (parseKey "x")).st.liveIntervals) ∧
    (exRepHeld.fireInterval 0).ev = [Event.onRepeat ⟨["x"], "n"⟩] ∧
    ((exRepHeld.handleKeyUp exKeyUpX).ev = [Event.onRepeatEnd ⟨["x"], "n"⟩] ∧
     (exRepHeld.handleKeyUp exKeyUpX).st.heldKeys.lookup "x" = none ∧
     ((exRepHeld.handleKeyUp exKeyUpX).st.fireInterval 0).ev = []) ∧
    ((exRepHeld.startRepeating "x" ⟨["x"], "n"⟩ none).ev =
       [Event.onRepeatEnd ⟨["x"], "n"⟩, Event.onRepeatStart ⟨["x"], "n"⟩] ∧
     (exRepHeld.startRepeating "x" ⟨["x"], "n"⟩ none).st.heldKeys.lookup "x" =
       some ⟨1, ⟨["x"], "n"⟩⟩ ∧
     (exRepHeld.startRepeating "x" ⟨["x"], "n"⟩ none).st.liveIntervals.find?
       (fun iv => iv.id = 0) = none ∧
     ((exRepHeld.startRepeating "x" ⟨["x"], "n"⟩ none).st.liveIntervals.filter
       (fun iv => iv.id = 1)).length = 1) := by
  have h := repeat_binding_spec exRep exRepHeld exRepHeld (parseKey "x") exNodeX
    (RepeatOption.boolVal true) 0 50 ⟨["x"], "n"⟩ ⟨["x"], "n"⟩ exKeyUpX
    ⟨0, ⟨["x"], "n"⟩⟩ "x" none
  have ha := h.1 rfl (by decide) (by decide) (by decide) (by decide)
  have hb := h.2.1 (by decide)
  have hc := h.2.2.1 (by decide) (by decide) (by decide)
  have hd := h.2.2.2 (by decide) (by decide) (by decide)
  exact ⟨rfl, ⟨ha.1, ha.2.1, ha.2.2⟩, hb.1,
    ⟨hc.1, hc.2.1, hc.2.2.2⟩, ⟨hd.1, hd.2.1, hd.2.2.1, hd.2.2.2⟩⟩

/-! ## Reachability and state invariants -/

/-- One externally observable operation of the processor: a key event or
parsed key arriving, a platform timer or interval firing, a key-up, or one
of the public configuration/mode/binding/repeat methods (including
`setTimer`, reachable by hooks through the `resetTimeout` escape hatch of
the context object). -/
inductive Step : KeyProcessor → KeyProcessor → Prop where
  | procParsed (s : KeyProcessor) (k : NKey) (rs : List OnKeyResult) :
      Step s (s.processKeyParsed k rs).st
  | procEvent (s : KeyProcessor) (event : KeyboardEvent) (rs : List OnKeyResult) :
      Step s (s.processKeyEvent event rs).st
  | fireT (s : KeyProcessor) (i : Nat) : Step s (s.fireTimeout i).st
  | fireI (s : KeyProcessor) (i : Nat) : Step s (s.fireInterval i).st
  | keyUp (s : KeyProcessor) (event : KeyboardEvent) : Step s (s.handleKeyUp event).st
  | setBinding (s : KeyProcessor) (sequence : String) : Step s (s.set sequence)
  | configureOp (s : KeyProcessor) (c : ConfigureOptions) : Step s (s.configure c)
  | initModeOp (s : KeyProcessor) (m : String) : Step s (s.initMode m)
  | setModeOp (s : KeyProcessor) (m : String) : Step s (s.setMode m).st
  | clearOp (s : KeyProcessor) : Step s s.clear.st
  | clearAllOp (s : KeyProcessor) : Step s s.clearAll.st
  | resetOp (s : KeyProcessor) : Step s s.reset.st
  | resetRootOp (s : KeyProcessor) : Step s s.resetToRoot.st
  | setTimerOp (s : KeyProcessor) (ty : TimerType) : Step s (s.setTimer ty)
  | clearTimerOp (s : KeyProcessor) : Step s s.clearTimer
  | startRepOp (s : KeyProcessor) (ks : String) (info : SequenceInfo) (ci : Option Nat) :
      Step s (s.startRepeating ks info ci).st
  | stopRepOp (s : KeyProcessor) (ks : String) : Step s (s.stopRepeating ks).st
  | stopAllRepOp (s : KeyProcessor) : Step s s.stopAllRepeating.st

/-- States reachable from a freshly constructed processor. -/
inductive Reachable : KeyProcessor → Prop where
  | init (options : KeyProcessorOptions) : Reachable (KeyProcessor.new options)
  | step {s t : KeyProcessor} : Reachable s → Step s t → Reachable t

/-- At most one sequence-resolution timer is scheduled, and it is the one
`timeoutId` refers to. -/
def TimerInv (s : KeyProcessor) : Prop :=
  s.liveTimeouts = [] ∨ ∃ t, s.liveTimeouts = [t] ∧ s.timeoutId = some t.id

/-- `matchedPath` and `currentNode` are reset together: the walk position is
at the root exactly when the matched path is empty. -/
def ResetTogether (s : KeyProcessor) : Prop :=
  s.matchedPath = [] ↔ s.currentPath = []

def ProcInv (s : KeyProcessor) : Prop := TimerInv s ∧ ResetTogether s

theorem clearTimer_liveTimeouts_of_inv (s : KeyProcessor) (h : TimerInv s) :
    (s.clearTimer).liveTimeouts = [] := by
  rcases h with h | ⟨t, h1, h2⟩
  · exact liveTimeouts_clearTimer_nil s h
  · simp [KeyProcessor.clearTimer, h2, h1]

theorem procInv_transfer (s t : KeyProcessor) (h : ProcInv s)
    (hlt : t.liveTimeouts = s.liveTimeouts) (hti : t.timeoutId = s.timeoutId)
    (hmp : t.matchedPath = s.matchedPath) (hcp : t.currentPath = s.currentPath) :
    ProcInv t := by
  obtain ⟨h1, h2⟩ := h
  constructor
  · unfold TimerInv at h1 ⊢
    rw [hlt, hti]
    exact h1
  · unfold ResetTogether at h2 ⊢
    rw [hmp, hcp]
    exact h2

theorem procInv_resetToRoot (s : KeyProcessor) (h : TimerInv s) :
    ProcInv (s.resetToRoot).st := by
  constructor
  · left
    show (({ s with currentPath := [], matchedPath := [] } : KeyProcessor).clearTimer).liveTimeouts = []
    apply clearTimer_liveTimeouts_of_inv
    exact h
  · constructor <;> intro <;> simp

@[simp]
theorem clearTimer_ambiguityTimeout (s : KeyProcessor) :
    (s.clearTimer).ambiguityTimeout = s.ambiguityTimeout := by
  cases h : s.timeoutId <;> simp [KeyProcessor.clearTimer, h]

@[simp]
theorem clearTimer_keyTimeout (s : KeyProcessor) :
    (s.clearTimer).keyTimeout = s.keyTimeout := by
  cases h : s.timeoutId <;> simp [KeyProcessor.clearTimer, h]

theorem timerInv_setTimer (s : KeyProcessor) (ty : TimerType) (h : TimerInv s) :
    TimerInv (s.setTimer ty) := by
  right
  refine ⟨⟨s.nextTimerId, ty,
      if ty = TimerType.AMBIGUOUS then s.ambiguityTimeout else s.keyTimeout⟩, ?_, ?_⟩
  · have hnil := clearTimer_liveTimeouts_of_inv s h
    simp [KeyProcessor.setTimer, hnil]
  · simp [KeyProcessor.setTimer]

theorem procInv_setTimer (s : KeyProcessor) (ty : TimerType) (h : ProcInv s) :
    ProcInv (s.setTimer ty) := by
  refine ⟨timerInv_setTimer s ty h.1, ?_⟩
  have h2 := h.2
  unfold ResetTogether at h2 ⊢
  simpa using h2

theorem procInv_clearTimer (s : KeyProcessor) (h : ProcInv s) : ProcInv s.clearTimer := by
  refine ⟨Or.inl (clearTimer_liveTimeouts_of_inv s h.1), ?_⟩
  have h2 := h.2
  unfold ResetTogether at h2 ⊢
  simpa using h2

@[simp]
theorem fireInterval_st (s : KeyProcessor) (i : Nat) : (s.fireInterval i).st = s := by
  cases hf : s.liveIntervals.find? (fun iv => iv.id = i) <;> simp [KeyProcessor.fireInterval, hf]

@[simp]
theorem initMode_liveTimeouts (s : KeyProcessor) (m : String) :
    (s.initMode m).liveTimeouts = s.liveTimeouts := by
  by_cases h : (s.modes.lookup m).isSome <;> simp [KeyProcessor.initMode, h]

@[simp]
theorem initMode_timeoutId (s : KeyProcessor) (m : String) :
    (s.initMode m).timeoutId = s.timeoutId := by
  by_cases h : (s.modes.lookup m).isSome <;> simp [KeyProcessor.initMode, h]

@[simp]
theorem initMode_matchedPath (s : KeyProcessor) (m : String) :
    (s.initMode m).matchedPath = s.matchedPath := by
  by_cases h : (s.modes.lookup m).isSome <;> simp [KeyProcessor.initMode, h]

@[simp]
theorem initMode_currentPath (s : KeyProcessor) (m : String) :
    (s.initMode m).currentPath = s.currentPath := by
  by_cases h : (s.modes.lookup m).isSome <;> simp [KeyProcessor.initMode, h]

@[simp]
theorem initMode_pending (s : KeyProcessor) (m : String) :
    (s.initMode m).pendingAmbiguousSequence = s.pendingAmbiguousSequence := by
  by_cases h : (s.modes.lookup m).isSome <;> simp [KeyProcessor.initMode, h]

theorem configure_frame (s : KeyProcessor) (c : ConfigureOptions) :
    (s.configure c).liveTimeouts = s.liveTimeouts ∧
    (s.configure c).timeoutId = s.timeoutId ∧
    (s.configure c).matchedPath = s.matchedPath ∧
    (s.configure c).currentPath = s.currentPath ∧
    (s.configure c).pendingAmbiguousSequence = s.pendingAmbiguousSequence := by
  obtain ⟨a, b, dm, fk⟩ := c
  cases a <;> cases b <;> cases dm <;> cases fk <;>
    simp [KeyProcessor.configure]

theorem procInv_processKeyCore (s : KeyProcessor) (k : NKey) (h : ProcInv s) :
    ProcInv (s.processKeyCore k).st := by
  cases hc : s.currentNodeD.getChild k.string with
  | none =>
    by_cases hg : (s.currentNodeD.isAmbiguous && s.pendingAmbiguousSequence.isSome) = true
    · have key : (s.processKeyCore k).st = (s.resetToRoot).st := by
        simp [KeyProcessor.processKeyCore, hc, hg]
      rw [key]
      exact procInv_resetToRoot s h.1
    · have key : (s.processKeyCore k).st = (s.resetToRoot).st := by
        simp [KeyProcessor.processKeyCore, hc, hg]
      rw [key]
      exact procInv_resetToRoot s h.1
  | some child =>
    by_cases hamb : child.isAmbiguous = true
    · have key : (s.processKeyCore k).st =
          (({ pushedState s k.string with
              pendingAmbiguousSequence :=
                some ((pushedState s k.string).getMatchedSequence) } :
            KeyProcessor).setTimer TimerType.AMBIGUOUS) := by
        simp [KeyProcessor.processKeyCore, hc, hamb, pushedState]
      rw [key]
      apply procInv_setTimer
      constructor
      · exact h.1
      · unfold ResetTogether
        constructor <;> intro habs <;> simp [pushedState] at habs
    · have hambf : child.isAmbiguous = false := by
        cases hval : child.isAmbiguous
        · rfl
        · exact absurd hval hamb
      by_cases hcc : child.canComplete = true
      · cases hrr : repeatRequested child.metadata.repeatOpt with
        | false =>
          have key : (s.processKeyCore k).st =
              ((pushedState s k.string).resetToRoot).st := by
            simp [KeyProcessor.processKeyCore, hc, hambf, hcc, hrr, pushedState]
          rw [key]
          apply procInv_resetToRoot
          exact h.1
        | true =>
          cases hl : s.heldKeys.lookup k.string with
          | none =>
            have key : (s.processKeyCore k).st =
                (((pushedState s k.string).startRepeating k.string
                  ⟨(pushedState s k.string).getMatchedSequence, s.currentMode⟩
                  (repeatIntervalOf child.metadata.repeatOpt)).st.resetToRoot).st := by
              simp [KeyProcessor.processKeyCore, hc, hambf, hcc, hrr, pushedState,
                KeyProcessor.startRepeating, KeyProcessor.stopRepeating, hl]
            rw [key]
            apply procInv_resetToRoot
            have hfr1 := startRepeating_st_liveTimeouts (pushedState s k.string) k.string
              ⟨(pushedState s k.string).getMatchedSequence, s.currentMode⟩
              (repeatIntervalOf child.metadata.repeatOpt)
            have hfr2 := stopRepeating_st_timeoutId (pushedState s k.string) k.string
            unfold TimerInv
            rw [hfr1]
            show (pushedState s k.string).liveTimeouts = [] ∨ _
            rcases h.1 with h1 | ⟨t2, h1, h2⟩
            · left
              simpa [pushedState] using h1
            · right
              refine ⟨t2, by simpa [pushedState] using h1, ?_⟩
              simp [KeyProcessor.startRepeating, KeyProcessor.stopRepeating, hl,
                pushedState]
              simpa [pushedState] using h2
          | some hk =>
            have key : (s.processKeyCore k).st =
                (((pushedState s k.string).startRepeating k.string
                  ⟨(pushedState s k.string).getMatchedSequence, s.currentMode⟩
                  (repeatIntervalOf child.metadata.repeatOpt)).st.resetToRoot).st := by
              simp [KeyProcessor.processKeyCore, hc, hambf, hcc, hrr, pushedState,
                KeyProcessor.startRepeating, KeyProcessor.stopRepeating, hl]
            rw [key]
            apply procInv_resetToRoot
            have hfr1 := startRepeating_st_liveTimeouts (pushedState s k.string) k.string
              ⟨(pushedState s k.string).getMatchedSequence, s.currentMode⟩
              (repeatIntervalOf child.metadata.repeatOpt)
            unfold TimerInv
            rw [hfr1]
            rcases h.1 with h1 | ⟨t2, h1, h2⟩
            · left
              simpa [pushedState] using h1
            · right
              refine ⟨t2, by simpa [pushedState] using h1, ?_⟩
              simp [KeyProcessor.startRepeating, KeyProcessor.stopRepeating, hl,
                pushedState]
              simpa [pushedState] using h2
      · have hccf : child.canComplete = false := by
          cases hval : child.canComplete
          · rfl
          · exact absurd hval hcc
        have key : (s.processKeyCore k).st =
            ((pushedState s k.string).setTimer TimerType.SEQUENCE) := by
          simp [KeyProcessor.processKeyCore, hc, hambf, hccf, pushedState]
        rw [key]
        apply procInv_setTimer
        constructor
        · exact h.1
        · unfold ResetTogether
          constructor <;> intro habs <;> simp [pushedState] at habs

theorem procInv_processKeyInternal (s : KeyProcessor) (k : NKey) (rs : List OnKeyResult)
    (h : ProcInv s) : ProcInv (s.processKeyInternal k rs).st := by
  cases hst : firstStance rs with
  | some b =>
    cases b
    · have key : (s.processKeyInternal k rs).st = s := by
        simp [KeyProcessor.processKeyInternal, hst]
      rw [key]
      exact h
    · have key : (s.processKeyInternal k rs).st = s := by
        simp [KeyProcessor.processKeyInternal, hst]
      rw [key]
      exact h
  | none =>
    by_cases hg : (s.currentNodeD.isAmbiguous && s.pendingAmbiguousSequence.isSome &&
        s.isForceExecuteKey k) = true
    · have key : (s.processKeyInternal k rs).st = (s.resetToRoot).st := by
        simp [KeyProcessor.processKeyInternal, hst, hg]
      rw [key]
      exact procInv_resetToRoot s h.1
    · have key : (s.processKeyInternal k rs).st = (s.processKeyCore k).st := by
        simp [KeyProcessor.processKeyInternal, hst, hg]
      rw [key]
      exact procInv_processKeyCore s k h

theorem procInv_processKeyParsed (s : KeyProcessor) (k : NKey) (rs : List OnKeyResult)
    (h : ProcInv s) : ProcInv (s.processKeyParsed k rs).st := by
  by_cases hlen : rs.length > 0
  · have key : (s.processKeyParsed k rs).st = s := by
      simp [KeyProcessor.processKeyParsed, hlen]
    rw [key]
    exact h
  · have key : (s.processKeyParsed k rs).st = (s.processKeyCore k).st := by
      simp [KeyProcessor.processKeyParsed, hlen]
    rw [key]
    exact procInv_processKeyCore s k h

theorem procInv_processKeyEvent (s : KeyProcessor) (event : KeyboardEvent)
    (rs : List OnKeyResult) (h : ProcInv s) : ProcInv (s.processKeyEvent event rs).st := by
  cases hact : s.isActive with
  | false =>
    have key : (s.processKeyEvent event rs).st = s := by
      simp [KeyProcessor.processKeyEvent, hact]
    rw [key]
    exact h
  | true =>
    by_cases hmod : event.key ∈ modifierKeys
    · have key : (s.processKeyEvent event rs).st = s := by
        simp [KeyProcessor.processKeyEvent, hact, hmod]
      rw [key]
      exact h
    · cases hret : (s.processKeyInternal (eventToKey event) rs).ret with
      | true =>
        have key : (s.processKeyEvent event rs).st =
            (s.processKeyInternal (eventToKey event) rs).st.clearTimer := by
          simp [KeyProcessor.processKeyEvent, hact, hmod, hret]
        rw [key]
        exact procInv_clearTimer _ (procInv_processKeyInternal s (eventToKey event) rs h)
      | false =>
        have key : (s.processKeyEvent event rs).st =
            (s.processKeyInternal (eventToKey event) rs).st := by
          simp [KeyProcessor.processKeyEvent, hact, hmod, hret]
        rw [key]
        exact procInv_processKeyInternal s (eventToKey event) rs h

theorem procInv_fireTimeout (s : KeyProcessor) (i : Nat) (h : ProcInv s) :
    ProcInv (s.fireTimeout i).st := by
  cases hf : s.liveTimeouts.find? (fun t => t.id = i) with
  | none =>
    have key : (s.fireTimeout i).st = s := by
      simp [KeyProcessor.fireTimeout, hf]
    rw [key]
    exact h
  | some t =>
    have hrec : TimerInv ({ s with
        liveTimeouts := s.liveTimeouts.filter (fun u => u.id ≠ i) } : KeyProcessor) := by
      rcases h.1 with h1 | ⟨t2, h1, h2⟩
      · left
        simp [h1]
      · by_cases hii : t2.id = i
        · left
          simp [h1, hii]
        · right
          exact ⟨t2, by simp [h1, hii], by simpa using h2⟩
    by_cases hcond : (t.capturedType = TimerType.AMBIGUOUS &&
        ({ s with liveTimeouts := s.liveTimeouts.filter (fun u => u.id ≠ i) } :
          KeyProcessor).pendingAmbiguousSequence.isSome) = true
    · have key : (s.fireTimeout i).st =
          (({ s with liveTimeouts := s.liveTimeouts.filter (fun u => u.id ≠ i) } :
            KeyProcessor).resetToRoot).st := by
        simp [KeyProcessor.fireTimeout, hf, hcond]
      rw [key]
      exact procInv_resetToRoot _ hrec
    · have key : (s.fireTimeout i).st =
          (({ s with liveTimeouts := s.liveTimeouts.filter (fun u => u.id ≠ i) } :
            KeyProcessor).resetToRoot).st := by
        simp [KeyProcessor.fireTimeout, hf, hcond]
      rw [key]
      exact procInv_resetToRoot _ hrec

theorem procInv_stopRepeating (s : KeyProcessor) (ks : String) (h : ProcInv s) :
    ProcInv (s.stopRepeating ks).st :=
  procInv_transfer s _ h (by simp) (by simp) (by simp) (by simp)

theorem procInv_startRepeating (s : KeyProcessor) (ks : String) (info : SequenceInfo)
    (ci : Option Nat) (h : ProcInv s) : ProcInv (s.startRepeating ks info ci).st :=
  procInv_transfer s _ h (by simp) (by simp) (by simp) (by simp)

theorem procInv_stopAllRepeating (s : KeyProcessor) (h : ProcInv s) :
    ProcInv s.stopAllRepeating.st :=
  procInv_transfer s _ h (by simp) (by simp) (by simp) (by simp)

theorem procInv_handleKeyUp (s : KeyProcessor) (event : KeyboardEvent) (h : ProcInv s) :
    ProcInv (s.handleKeyUp event).st := by
  cases hact : s.isActive with
  | false =>
    have key : (s.handleKeyUp event).st = s := by
      simp [KeyProcessor.handleKeyUp, hact]
    rw [key]
    exact h
  | true =>
    by_cases hmod : event.key ∈ modifierKeys
    · have key : (s.handleKeyUp event).st = s := by
        simp [KeyProcessor.handleKeyUp, hact, hmod]
      rw [key]
      exact h
    · have key : (s.handleKeyUp event).st =
          (s.stopRepeating (eventToKey event).string).st := by
        simp [KeyProcessor.handleKeyUp, hact, hmod]
      rw [key]
      exact procInv_stopRepeating s _ h

theorem procInv_set (s : KeyProcessor) (sequence : String) (h : ProcInv s) :
    ProcInv (s.set sequence) :=
  procInv_transfer s _ h (by simp [KeyProcessor.set]) (by simp [KeyProcessor.set])
    (by simp [KeyProcessor.set]) (by simp [KeyProcessor.set])

theorem procInv_configure (s : KeyProcessor) (c : ConfigureOptions) (h : ProcInv s) :
    ProcInv (s.configure c) :=
  procInv_transfer s _ h (configure_frame s c).1 (configure_frame s c).2.1
    (configure_frame s c).2.2.1 (configure_frame s c).2.2.2.1

theorem procInv_initMode (s : KeyProcessor) (m : String) (h : ProcInv s) :
    ProcInv (s.initMode m) :=
  procInv_transfer s _ h (by simp) (by simp) (by simp) (by simp)

theorem procInv_setMode (s : KeyProcessor) (m : String) (h : ProcInv s) :
    ProcInv (s.setMode m).st := by
  by_cases hlk : ((s.stopAllRepeating.st.modes.lookup m)).isSome = true
  · simp only [KeyProcessor.setMode]
    simp [hlk]
    apply procInv_resetToRoot
    have h1 := (procInv_stopAllRepeating s h).1
    unfold TimerInv at h1 ⊢
    simpa using h1
  · simp only [KeyProcessor.setMode]
    simp [hlk]
    apply procInv_resetToRoot
    have h1 := (procInv_initMode _ m (procInv_stopAllRepeating s h)).1
    unfold TimerInv at h1 ⊢
    simpa using h1

theorem procInv_clear (s : KeyProcessor) (h : ProcInv s) : ProcInv s.clear.st := by
  have key : s.clear.st =
      (({ { s with modes := jsMapSet s.modes s.currentMode emptyTrie } with
          currentRoot := ((jsMapSet s.modes s.currentMode emptyTrie).lookup
            s.currentMode).getD emptyTrie } : KeyProcessor).resetToRoot).st := by
    simp [KeyProcessor.clear]
  rw [key]
  apply procInv_resetToRoot
  exact h.1

theorem procInv_clearAll (s : KeyProcessor) (h : ProcInv s) : ProcInv s.clearAll.st := by
  simp only [KeyProcessor.clearAll]
  apply procInv_setMode
  apply procInv_initMode
  exact procInv_transfer s _ h (by simp) (by simp) (by simp) (by simp)

theorem procInv_reset (s : KeyProcessor) (h : ProcInv s) : ProcInv s.reset.st := by
  simp only [KeyProcessor.reset]
  apply procInv_setMode
  exact procInv_resetToRoot _ (procInv_stopAllRepeating s h).1

theorem procInv_step {s t : KeyProcessor} (h : ProcInv s) (hst : Step s t) : ProcInv t := by
  cases hst with
  | procParsed k rs => exact procInv_processKeyParsed s k rs h
  | procEvent event rs => exact procInv_processKeyEvent s event rs h
  | fireT i => exact procInv_fireTimeout s i h
  | fireI i => rw [fireInterval_st]; exact h
  | keyUp event => exact procInv_handleKeyUp s event h
  | setBinding sequence => exact procInv_set s sequence h
  | configureOp c => exact procInv_configure s c h
  | initModeOp m => exact procInv_initMode s m h
  | setModeOp m => exact procInv_setMode s m h
  | clearOp => exact procInv_clear s h
  | clearAllOp => exact procInv_clearAll s h
  | resetOp => exact procInv_reset s h
  | resetRootOp => exact procInv_resetToRoot s h.1
  | setTimerOp ty => exact procInv_setTimer s ty h
  | clearTimerOp => exact procInv_clearTimer s h
  | startRepOp ks info ci => exact procInv_startRepeating s ks info ci h
  | stopRepOp ks => exact procInv_stopRepeating s ks h
  | stopAllRepOp => exact procInv_stopAllRepeating s h

theorem reachable_procInv (s : KeyProcessor) (h : Reachable s) : ProcInv s := by
  induction h with
  | init options =>
    constructor
    · left
      rfl
    · constructor <;> intro <;> rfl
  | step _ hstep ih => exact procInv_step ih hstep

/-- C4: in every reachable state at most one sequence-resolution timer is
outstanding (and it is the one `timeoutId` names); starting a new timer
always leaves exactly the fresh timer scheduled; and `currentNode` sits at
the root exactly when `matchedPath` is empty — the two are reset together,
as `resetToRoot` itself shows. -/
theorem timer_and_reset_invariant (s : KeyProcessor) (hs : Reachable s) :
    s.liveTimeouts.length ≤ 1 ∧
    (∀ t ∈ s.liveTimeouts, s.timeoutId = some t.id) ∧
    (∀ ty, (s.setTimer ty).liveTimeouts =
      [⟨s.nextTimerId, ty,
        if ty = TimerType.AMBIGUOUS then s.ambiguityTimeout else s.keyTimeout⟩]) ∧
    (s.matchedPath = [] ↔ s.currentPath = []) ∧
    (s.resetToRoot).st.currentPath = [] ∧
    (s.resetToRoot).st.matchedPath = [] := by
  obtain ⟨h1, h2⟩ := reachable_procInv s hs
  refine ⟨?_, ?_, ?_, h2, by simp, by simp⟩
  · rcases h1 with h | ⟨t, ht, _⟩
    · simp [h]
    · simp [ht]
  · intro t htmem
    rcases h1 with h | ⟨t2, ht, hid⟩
    · rw [h] at htmem
      cases htmem
    · rw [ht] at htmem
      simp at htmem
      subst htmem
      exact hid
  · intro ty
    have hnil := clearTimer_liveTimeouts_of_inv s h1
    simp [KeyProcessor.setTimer, hnil]

/-- Witness for C4: the ambiguous state reached by installing `"a"`, `"ab"`
and processing `a` (an `AMBIGUOUS` timer is live there). -/
theorem timer_and_reset_invariant_witness :
    exAmbState.liveTimeouts.length ≤ 1 ∧
    (∀ t ∈ exAmbState.liveTimeouts, exAmbState.timeoutId = some t.id) ∧
    (exAmbState.matchedPath = [] ↔ exAmbState.currentPath = []) := by
  have hr : Reachable exAmbState :=
    Reachable.step
      (Reachable.step
        (Reachable.step (Reachable.init exOpts)
          (Step.setBinding (KeyProcessor.new exOpts) "a"))
        (Step.setBinding ((KeyProcessor.new exOpts).set "a") "ab"))
      (Step.procParsed exPAB (parseKey "a") [])
  have h := timer_and_reset_invariant exAmbState hr
  exact ⟨h.1, h.2.1, h.2.2.2.1⟩

theorem pending_processKeyCore (s : KeyProcessor) (k : NKey) :
    (s.processKeyCore k).st.pendingAmbiguousSequence = s.pendingAmbiguousSequence ∨
    ∃ seq, (s.processKeyCore k).st.pendingAmbiguousSequence = some seq := by
  cases hc : s.currentNodeD.getChild k.string with
  | none =>
    left
    by_cases hg : (s.currentNodeD.isAmbiguous && s.pendingAmbiguousSequence.isSome) = true <;>
      simp [KeyProcessor.processKeyCore, hc, hg]
  | some child =>
    by_cases hamb : child.isAmbiguous = true
    · right
      refine ⟨(pushedState s k.string).getMatchedSequence, ?_⟩
      simp [KeyProcessor.processKeyCore, hc, hamb, pushedState]
    · left
      have hambf : child.isAmbiguous = false := by
        cases hval : child.isAmbiguous
        · rfl
        · exact absurd hval hamb
      by_cases hcc : child.canComplete = true
      · cases hrr : repeatRequested child.metadata.repeatOpt <;>
          cases hl : s.heldKeys.lookup k.string <;>
          simp [KeyProcessor.processKeyCore, hc, hambf, hcc, hrr,
            KeyProcessor.startRepeating, KeyProcessor.stopRepeating, hl]
      · have hccf : child.canComplete = false := by
          cases hval : child.canComplete
          · rfl
          · exact absurd hval hcc
        simp [KeyProcessor.processKeyCore, hc, hambf, hccf]

theorem pending_processKeyInternal (s : KeyProcessor) (k : NKey) (rs : List OnKeyResult) :
    (s.processKeyInternal k rs).st.pendingAmbiguousSequence = s.pendingAmbiguousSequence ∨
    ∃ seq, (s.processKeyInternal k rs).st.pendingAmbiguousSequence = some seq := by
  cases hst : firstStance rs with
  | some b =>
    left
    cases b <;> simp [KeyProcessor.processKeyInternal, hst]
  | none =>
    by_cases hg : (s.currentNodeD.isAmbiguous && s.pendingAmbiguousSequence.isSome &&
        s.isForceExecuteKey k) = true
    · left
      simp [KeyProcessor.processKeyInternal, hst, hg]
    · have key : (s.processKeyInternal k rs).st = (s.processKeyCore k).st := by
        simp [KeyProcessor.processKeyInternal, hst, hg]
      rw [key]
      exact pending_processKeyCore s k

theorem pending_processKeyParsed (s : KeyProcessor) (k : NKey) (rs : List OnKeyResult) :
    (s.processKeyParsed k rs).st.pendingAmbiguousSequence = s.pendingAmbiguousSequence ∨
    ∃ seq, (s.processKeyParsed k rs).st.pendingAmbiguousSequence = some seq := by
  by_cases hlen : rs.length > 0
  · left
    simp [KeyProcessor.processKeyParsed, hlen]
  · have key : (s.processKeyParsed k rs).st = (s.processKeyCore k).st := by
      simp [KeyProcessor.processKeyParsed, hlen]
    rw [key]
    exact pending_processKeyCore s k

theorem pending_processKeyEvent (s : KeyProcessor) (event : KeyboardEvent)
    (rs : List OnKeyResult) :
    (s.processKeyEvent event rs).st.pendingAmbiguousSequence = s.pendingAmbiguousSequence ∨
    ∃ seq, (s.processKeyEvent event rs).st.pendingAmbiguousSequence = some seq := by
  cases hact : s.isActive with
  | false =>
    left
    simp [KeyProcessor.processKeyEvent, hact]
  | true =>
    by_cases hmod : event.key ∈ modifierKeys
    · left
      simp [KeyProcessor.processKeyEvent, hact, hmod]
    · cases hret : (s.processKeyInternal (eventToKey event) rs).ret with
      | true =>
        have key : (s.processKeyEvent event rs).st =
            (s.processKeyInternal (eventToKey event) rs).st.clearTimer := by
          simp [KeyProcessor.processKeyEvent, hact, hmod, hret]
        rw [key, clearTimer_pending]
        exact pending_processKeyInternal s (eventToKey event) rs
      | false =>
        have key : (s.processKeyEvent event rs).st =
            (s.processKeyInternal (eventToKey event) rs).st := by
          simp [KeyProcessor.processKeyEvent, hact, hmod, hret]
        rw [key]
        exact pending_processKeyInternal s (eventToKey event) rs

theorem pending_fireTimeout (s : KeyProcessor) (i : Nat) :
    (s.fireTimeout i).st.pendingAmbiguousSequence = s.pendingAmbiguousSequence := by
  cases hf : s.liveTimeouts.find? (fun t => t.id = i) with
  | none => simp [KeyProcessor.fireTimeout, hf]
  | some t =>
    by_cases hcond : (t.capturedType = TimerType.AMBIGUOUS &&
        ({ s with liveTimeouts := s.liveTimeouts.filter (fun u => u.id ≠ i) } :
          KeyProcessor).pendingAmbiguousSequence.isSome) = true <;>
      simp [KeyProcessor.fireTimeout, hf, hcond]

theorem pending_setMode (s : KeyProcessor) (m : String) :
    (s.setMode m).st.pendingAmbiguousSequence = s.pendingAmbiguousSequence := by
  by_cases hlk : ((s.stopAllRepeating.st.modes.lookup m)).isSome = true <;>
    simp [KeyProcessor.setMode, hlk]

theorem pending_handleKeyUp (s : KeyProcessor) (event : KeyboardEvent) :
    (s.handleKeyUp event).st.pendingAmbiguousSequence = s.pendingAmbiguousSequence := by
  cases hact : s.isActive with
  | false => simp [KeyProcessor.handleKeyUp, hact]
  | true =>
    by_cases hmod : event.key ∈ modifierKeys <;>
      simp [KeyProcessor.handleKeyUp, hact, hmod]

/-- No operation ever sets the pending marker back to `null`: every step
either leaves it unchanged or overwrites it with a (non-null) sequence. -/
theorem pending_step {s t : KeyProcessor} (hst : Step s t) :
    t.pendingAmbiguousSequence = s.pendingAmbiguousSequence ∨
    ∃ seq, t.pendingAmbiguousSequence = some seq := by
  cases hst with
  | procParsed k rs => exact pending_processKeyParsed s k rs
  | procEvent event rs => exact pending_processKeyEvent s event rs
  | fireT i => exact Or.inl (pending_fireTimeout s i)
  | fireI i => left; rw [fireInterval_st]
  | keyUp event => exact Or.inl (pending_handleKeyUp s event)
  | setBinding sequence => left; simp [KeyProcessor.set]
  | configureOp c => exact Or.inl (configure_frame s c).2.2.2.2
  | initModeOp m => left; simp
  | setModeOp m => exact Or.inl (pending_setMode s m)
  | clearOp => left; simp [KeyProcessor.clear]
  | clearAllOp =>
    left
    simp only [KeyProcessor.clearAll]
    rw [pending_setMode]
    simp
  | resetOp =>
    left
    simp only [KeyProcessor.reset]
    rw [pending_setMode]
    simp
  | resetRootOp => left; simp
  | setTimerOp ty => left; simp
  | clearTimerOp => left; simp
  | startRepOp ks info ci => left; simp
  | stopRepOp ks => left; simp
  | stopAllRepOp => left; simp

/-- C10: `resetToRoot` resets the walk position, empties the matched path
and cancels the timer but leaves `pendingAmbiguousSequence` untouched; and
no processor operation ever sets the pending marker back to `null` — it is
only ever overwritten with a new sequence, so a stale marker survives every
reset. -/
theorem pending_survives_reset_spec :
    (∀ s : KeyProcessor,
      (s.resetToRoot).st.pendingAmbiguousSequence = s.pendingAmbiguousSequence ∧
      (s.resetToRoot).st.currentPath = [] ∧
      (s.resetToRoot).st.matchedPath = [] ∧
      (s.resetToRoot).st.timeoutId = none) ∧
    (∀ s t : KeyProcessor, Step s t →
      t.pendingAmbiguousSequence = s.pendingAmbiguousSequence ∨
      ∃ seq, t.pendingAmbiguousSequence = some seq) :=
  ⟨fun s => ⟨by simp, by simp, by simp, by simp⟩, fun _ _ hst => pending_step hst⟩

/-- Witness for C10: the stale marker `["a"]` survives a reset of the
concrete ambiguous state. -/
theorem pending_survives_reset_spec_witness :
    (exAmbState.resetToRoot).st.pendingAmbiguousSequence = some ["a"] ∧
    (exAmbState.resetToRoot).st.currentPath = [] ∧
    ((exAmbState.resetToRoot).st.pendingAmbiguousSequence =
        exAmbState.pendingAmbiguousSequence ∨
      ∃ seq, (exAmbState.resetToRoot).st.pendingAmbiguousSequence = some seq) := by
  refine ⟨?_, (pending_survives_reset_spec.1 exAmbState).2.1,
    pending_survives_reset_spec.2 exAmbState _ (Step.resetRootOp exAmbState)⟩
  rw [(pending_survives_reset_spec.1 exAmbState).1]
  decide
